import Mathlib

/-!
Verification of the mdPdf markdown-to-PDF pipeline.

This file gives a shallow embedding in Lean of the parts of the source that
the verified claims are about:

* `src/lib/markdown.rs` — the `Lexer` (tokenizer): `Token`, `LexerError`,
  `Lexer::parse` and all of its helper methods, embedded as pure functions
  over a character list and a cursor position.  The mutually recursive
  token-level parsing functions are embedded with an explicit fuel
  parameter (`none` signalling fuel exhaustion, which never occurs for the
  fuel budget used by the top-level entry point on the inputs considered).
* `src/lib/pdf.rs` — the block structurer `Pdf::group_tokens` and the
  inline renderer `Pdf::render_inline_tokens`.
* `src/lib/config.rs` / `src/lib/styling.rs` — the style resolver
  (`parse_style`, `parse_alignment`, `parse_color`, the pure core of
  `load_config`) over an embedding of decoded TOML values, and the
  built-in default style table `StyleMatch::default`.

Theorems about the claims follow the definitions.
-/

namespace MdPdf

/-- The backtick character, written via its code point. -/
def btick : Char := Char.ofNat 96

/-- `Token` from `src/lib/markdown.rs`: the tokens produced by the lexer. -/
inductive Token where
  | heading (children : List Token) (level : Nat)
  | emphasis (level : Nat) (content : List Token)
  | strongEmphasis (children : List Token)
  | code (language : String) (content : String)
  | blockQuote (text : String)
  | listItem (content : List Token) (ordered : Bool) (number : Option Nat)
  | link (text : String) (url : String)
  | image (alt : String) (url : String)
  | text (s : String)
  | htmlComment (s : String)
  | newline
  | horizontalRule
  | unknown (s : String)
deriving Repr

/-- `LexerError` from `src/lib/markdown.rs`. -/
inductive LexerError where
  | unexpectedEndOfInput
  | unknownToken (s : String)
deriving Repr, DecidableEq

/-- Rust's `char::is_whitespace` (the Unicode `White_Space` property). -/
def rustIsWhitespace (c : Char) : Bool :=
  c == ' ' || c == '\t' || c == '\n' || c == '\r' ||
  c == Char.ofNat 0x0b || c == Char.ofNat 0x0c ||
  c == Char.ofNat 0x85 || c == Char.ofNat 0xa0 || c == Char.ofNat 0x1680 ||
  (0x2000 ≤ c.toNat && c.toNat ≤ 0x200a) ||
  c == Char.ofNat 0x2028 || c == Char.ofNat 0x2029 ||
  c == Char.ofNat 0x202f || c == Char.ofNat 0x205f || c == Char.ofNat 0x3000

/-- Characters skipped by `Lexer::skip_whitespace`: whitespace except newline. -/
def isSkippableWs (c : Char) : Bool := rustIsWhitespace c && c != '\n'

/-- Length of the longest prefix of `l` all of whose characters satisfy `p`
(the number of loop iterations of the source's scanning `while` loops). -/
def countWhile (p : Char → Bool) : List Char → Nat
  | [] => 0
  | c :: cs => if p c then countWhile p cs + 1 else 0

/-- `Lexer::current_char`: the character at `pos`, or `'\0'` past the end. -/
def currentChar (input : List Char) (pos : Nat) : Char :=
  (input.get? pos).getD (Char.ofNat 0)

/-- `Lexer::is_at_line_start`. -/
def isAtLineStart (input : List Char) (pos : Nat) : Bool :=
  pos == 0 || input.get? (pos - 1) == some '\n'

/-- `Lexer::skip_whitespace`: the position after skipping non-newline
whitespace. -/
def skipWhitespace (input : List Char) (pos : Nat) : Nat :=
  pos + countWhile isSkippableWs (input.drop pos)

/-- `Lexer::read_until_newline` / `read_until_char`, generalized over the
stopping predicate: the string read and the new position. -/
def readUntil (stop : Char → Bool) (input : List Char) (pos : Nat) :
    String × Nat :=
  let taken := (input.drop pos).takeWhile (fun c => !stop c)
  (String.mk taken, pos + taken.length)

/-- `Lexer::is_html_comment_start`. -/
def isHtmlCommentStart (input : List Char) (pos : Nat) : Bool :=
  List.isPrefixOf ['<', '!', '-', '-'] (input.drop pos)

/-- The body of `Lexer::is_start_of_special_token`, phrased on the remaining
input suffix. -/
def isStartOfSpecialSuffix : List Char → Bool
  | [] => false
  | c :: cs =>
    if c == '#' || c == '*' || c == '_' || c == btick || c == '[' || c == '!'
    then true
    else if c == '<' then List.isPrefixOf ['!', '-', '-'] cs
    else false

/-- `Lexer::is_start_of_special_token`. -/
def isStartOfSpecialToken (input : List Char) (pos : Nat) : Bool :=
  isStartOfSpecialSuffix (input.drop pos)

/-- `Lexer::is_after_special_token`. -/
def isAfterSpecialToken (input : List Char) (pos : Nat) : Bool :=
  if pos == 0 then false
  else
    let prev := (input.get? (pos - 1)).getD (Char.ofNat 0)
    prev == btick || prev == ')'

/-- `Lexer::check_horizontal_rule`: whether a run of at least three hyphens
starts at `pos`; on success the position is moved past the run. -/
def checkHorizontalRule (input : List Char) (pos : Nat) : Bool × Nat :=
  if currentChar input pos == '-' then
    let run := 1 + countWhile (fun c => c == '-') (input.drop (pos + 1))
    if 3 ≤ run then (true, pos + run) else (false, pos)
  else (false, pos)

/-- Value of a decimal digit string, as accumulated by `str::parse`. -/
def natOfDigits (ds : List Char) : Nat :=
  ds.foldl (fun n c => n * 10 + (c.toNat - 48)) 0

/-- Rust's `"...".parse::<usize>()`: fails on the empty string and on
overflow past `usize::MAX`. -/
def parseUsize (ds : List Char) : Option Nat :=
  if ds.isEmpty then none
  else if natOfDigits ds < 2 ^ 64 then some (natOfDigits ds) else none

/-- `Lexer::check_ordered_list_marker` (pure: it only reads). -/
def checkOrderedListMarker (input : List Char) (pos : Nat) : Option Nat :=
  let digits := (input.drop pos).takeWhile Char.isDigit
  if input.get? (pos + digits.length) == some '.' then parseUsize digits
  else none

/-- The scanning loop of `Lexer::get_current_indent`, on the input suffix. -/
def indentOf : List Char → Nat
  | ' ' :: cs => 1 + indentOf cs
  | '\t' :: cs => 4 + indentOf cs
  | _ => 0

/-- `Lexer::get_current_indent`. -/
def getCurrentIndent (input : List Char) (pos : Nat) : Nat :=
  indentOf (input.drop pos)

/-- Rust's `str::trim` (both ends, Unicode whitespace). -/
def rustTrim (s : String) : String :=
  String.mk
    (((s.data.dropWhile rustIsWhitespace).reverse.dropWhile
        rustIsWhitespace).reverse)

/-- The content-scanning loop of the multi-line case of `Lexer::parse_code`:
each iteration counts (and steps past) a backtick run; a run of length
`startN` ends the scan, otherwise the character after the run is appended.
The first `Nat` argument is an iteration bound; since every iteration
advances the position, a bound of `input.length - pos` makes the fuelled
loop agree with the source's `while` loop. -/
def codeScanFuel (input : List Char) (startN : Nat) :
    Nat → Nat → List Char → List Char × Nat
  | 0, pos, acc => (acc, pos)
  | fuel + 1, pos, acc =>
    if pos < input.length then
      let k := countWhile (fun c => c == btick) (input.drop pos)
      if k == startN then (acc, pos + k)
      else
        codeScanFuel input startN fuel (pos + k + 1)
          (acc ++ [currentChar input (pos + k)])
    else (acc, pos)

/-- The content-scanning loop of `Lexer::parse_code`, with the iteration
bound instantiated. -/
def codeScan (input : List Char) (startN : Nat) (pos : Nat)
    (acc : List Char) : List Char × Nat :=
  codeScanFuel input startN (input.length - pos) pos acc

/-- The trailing loop of `Lexer::parse_code` that skips up to `n` closing
backticks. -/
def skipClosingBackticks (input : List Char) : Nat → Nat → Nat
  | 0, pos => pos
  | n + 1, pos =>
    if pos < input.length && currentChar input pos == btick then
      skipClosingBackticks input n (pos + 1)
    else skipClosingBackticks input n pos

/-- `Lexer::parse_code`. -/
def parseCode (input : List Char) (pos : Nat) : Token × Nat :=
  let startBackticks := countWhile (fun c => c == btick) (input.drop pos)
  let pos := pos + startBackticks
  if startBackticks == 1 then
    let content := (input.drop pos).takeWhile (fun c => c != btick)
    let pos := pos + content.length
    let pos := if pos < input.length then pos + 1 else pos
    (Token.code "" (String.mk content), pos)
  else
    let pos := skipWhitespace input pos
    let (language, pos) := readUntil (fun c => c == '\n') input pos
    let (content, pos) := codeScan input startBackticks pos []
    let pos := skipClosingBackticks input startBackticks pos
    (Token.code (rustTrim language) (rustTrim (String.mk content)), pos)

/-- `Lexer::parse_blockquote`. -/
def parseBlockquote (input : List Char) (pos : Nat) : Token × Nat :=
  let pos := pos + 1
  let pos := skipWhitespace input pos
  let (content, pos) := readUntil (fun c => c == '\n') input pos
  (Token.blockQuote content, pos)

/-- `Lexer::parse_link`. -/
def parseLink (input : List Char) (pos : Nat) : Token × Nat :=
  let pos := pos + 1
  let (text, pos) := readUntil (fun c => c == ']') input pos
  let pos := pos + 1
  if currentChar input pos == '(' then
    let pos := pos + 1
    let (url, pos) := readUntil (fun c => c == ')') input pos
    (Token.link text url, pos + 1)
  else (Token.link text "", pos)

/-- `Lexer::parse_image`. -/
def parseImage (input : List Char) (pos : Nat) :
    Except LexerError (Token × Nat) :=
  let pos := pos + 1
  if currentChar input pos == '[' then
    let pos := pos + 1
    let (altText, pos) := readUntil (fun c => c == ']') input pos
    let pos := pos + 1
    if currentChar input pos == '(' then
      let pos := pos + 1
      let (url, pos) := readUntil (fun c => c == ')') input pos
      Except.ok (Token.image altText url, pos + 1)
    else Except.error (LexerError.unknownToken altText)
  else Except.error (LexerError.unknownToken "!")

/-- The text-accumulating loop of `Lexer::parse_text`, on the input suffix:
characters are taken until a newline or the start of a special token. -/
def textScanList : List Char → List Char
  | [] => []
  | c :: cs =>
    if c == '\n' then []
    else if c == '#' || c == '*' || c == '_' || c == btick || c == '[' ||
        c == '!' then []
    else if c == '<' && List.isPrefixOf ['!', '-', '-'] cs then []
    else c :: textScanList cs

/-- `Lexer::parse_text`. -/
def parseText (input : List Char) (pos : Nat) :
    Except LexerError (Token × Nat) :=
  let startPos := pos
  let (lead, pos) :=
    if 0 < pos && currentChar input pos == ' ' then (" ", pos + 1)
    else ("", pos)
  let scanned := textScanList (input.drop pos)
  let content := lead ++ String.mk scanned
  let pos := pos + scanned.length
  if content.isEmpty then
    Except.error (LexerError.unknownToken
      ("Unexpected character at position " ++ Nat.repr startPos))
  else Except.ok (Token.text content, pos)

/-- The scanning loop of `Lexer::parse_html_comment`, on the suffix after the
opening `<!--`: finds the closing run (the loop runs while at least three
characters remain).  Returns the comment body and its length, or `none` when
the comment is unterminated. -/
def commentScan : List Char → Option (List Char × Nat)
  | '-' :: '-' :: '>' :: _ => some ([], 0)
  | c :: c2 :: c3 :: rest =>
    (commentScan (c2 :: c3 :: rest)).map (fun r => (c :: r.1, r.2 + 1))
  | _ => none

/-- `Lexer::parse_html_comment`. -/
def parseHtmlComment (input : List Char) (pos : Nat) :
    Except LexerError (Token × Nat) :=
  let pos := pos + 4
  match commentScan (input.drop pos) with
  | some (content, n) =>
    Except.ok (Token.htmlComment (String.mk content), pos + n + 3)
  | none => Except.error LexerError.unexpectedEndOfInput

/-- `Lexer::parse_newline`. -/
def parseNewline (_input : List Char) (pos : Nat) : Token × Nat :=
  (Token.newline, pos + 1)

/-- Lift the result of a token-parsing helper into the shape returned by
`Lexer::next_token`. -/
def liftTok (r : Option (Except LexerError (Token × Nat))) :
    Option (Except LexerError (Option Token × Nat)) :=
  r.map (fun e => e.map (fun tp => (some tp.1, tp.2)))

/-- The position prologue of `Lexer::next_token`: whitespace is skipped
unless the position is immediately after a special token. -/
def adjustPos (input : List Char) (pos : Nat) : Nat :=
  if isAfterSpecialToken input pos then pos else skipWhitespace input pos

/-- Sequencing of fuelled fallible steps: `none` (fuel ran out) and parse
errors propagate, successes feed the continuation (this is the shape of the
`?` operator in the source's `Result`-returning methods). -/
def andThen {α β : Type} (r : Option (Except LexerError α))
    (f : α → Option (Except LexerError β)) :
    Option (Except LexerError β) :=
  match r with
  | none => none
  | some (Except.error e) => some (Except.error e)
  | some (Except.ok a) => f a

mutual

/-- The parsing loop of `Lexer::parse`: collect tokens from `pos` to the end
of the input.  The `Nat` argument is fuel; `none` means it ran out. -/
def parseTokens : Nat → List Char → Nat →
    Option (Except LexerError (List Token))
  | 0, _, _ => none
  | fuel + 1, input, pos =>
    if pos < input.length then
      andThen (nextToken fuel input pos) (fun tp =>
        andThen (parseTokens fuel input tp.2) (fun toks =>
          some (Except.ok (match tp.1 with
            | some t => t :: toks
            | none => toks))))
    else some (Except.ok [])
termination_by structural fuel _ _ => fuel

/-- `Lexer::next_token`: dispatch on the current character and context. -/
def nextToken : Nat → List Char → Nat →
    Option (Except LexerError (Option Token × Nat))
  | 0, _, _ => none
  | fuel + 1, input, pos =>
    let pos := adjustPos input pos
    if input.length ≤ pos then some (Except.ok (none, pos))
    else
      let c := currentChar input pos
      let ls := isAtLineStart input pos
      if c == '#' && ls then liftTok (parseHeading fuel input pos)
      else if c == '*' || c == '_' then liftTok (parseEmphasis fuel input pos)
      else if c == btick then
        let r := parseCode input pos
        some (Except.ok (some r.1, r.2))
      else if c == '>' && ls then
        let r := parseBlockquote input pos
        some (Except.ok (some r.1, r.2))
      else if (c == '-' || c == '+') && ls then
        let hr := checkHorizontalRule input pos
        if hr.1 then some (Except.ok (some Token.horizontalRule, hr.2))
        else liftTok (parseListItem fuel input pos false 0)
      else if c.isDigit && ls then
        if (checkOrderedListMarker input pos).isSome then
          liftTok (parseListItem fuel input pos true 0)
        else liftTok (some (parseText input pos))
      else if c == '[' then
        let r := parseLink input pos
        some (Except.ok (some r.1, r.2))
      else if c == '!' then liftTok (some (parseImage input pos))
      else if c == '<' && isHtmlCommentStart input pos then
        liftTok (some (parseHtmlComment input pos))
      else if c == '\n' then
        let r := parseNewline input pos
        some (Except.ok (some r.1, r.2))
      else liftTok (some (parseText input pos))
termination_by structural fuel _ _ => fuel

/-- `Lexer::parse_heading`. -/
def parseHeading : Nat → List Char → Nat →
    Option (Except LexerError (Token × Nat))
  | 0, _, _ => none
  | fuel + 1, input, pos =>
    let level := countWhile (fun c => c == '#') (input.drop pos)
    let pos := pos + level
    let pos := skipWhitespace input pos
    andThen (parseNestedContent fuel input pos (fun c => c == '\n')
        (getCurrentIndent input pos)) (fun cp =>
      some (Except.ok (Token.heading cp.1 level, cp.2)))
termination_by structural fuel _ _ => fuel

/-- `Lexer::parse_emphasis`. -/
def parseEmphasis : Nat → List Char → Nat →
    Option (Except LexerError (Token × Nat))
  | 0, _, _ => none
  | fuel + 1, input, pos =>
    let startPos := pos
    let delimiter := currentChar input pos
    let level := countWhile (fun c => c == delimiter) (input.drop pos)
    let pos := pos + level
    andThen (parseNestedContent fuel input pos (fun c => c == delimiter)
        (getCurrentIndent input pos)) (fun cp =>
      let content := cp.1 ++ [Token.text " "]
      if List.isPrefixOf (List.replicate level delimiter)
          (input.drop cp.2) then
        some (Except.ok (Token.emphasis (min level 3) content, cp.2 + level))
      else
        some (Except.error (LexerError.unknownToken
          ("Unmatched emphasis at position " ++ Nat.repr startPos))))
termination_by structural fuel _ _ => fuel

/-- The loop of `Lexer::parse_nested_content` (the `initialIndent` argument
is the indentation captured at its entry). -/
def parseNestedContent : Nat → List Char → Nat → (Char → Bool) → Nat →
    Option (Except LexerError (List Token × Nat))
  | 0, _, _, _, _ => none
  | fuel + 1, input, pos, isDelim, initialIndent =>
    if pos < input.length then
      if isDelim (currentChar input pos) then some (Except.ok ([], pos))
      else
        let indented :=
          isAtLineStart input pos &&
            initialIndent < getCurrentIndent input pos
        let posInd :=
          if indented then pos + getCurrentIndent input pos else pos
        let c := currentChar input posInd
        if indented && (c == '-' || c == '+') then
          let hr := checkHorizontalRule input posInd
          if hr.1 then
            -- the horizontal-rule check consumed the hyphens; fall through
            -- to `next_token` at the new position
            nestedStep fuel input hr.2 isDelim initialIndent
          else
            andThen (parseListItem fuel input posInd false
                (getCurrentIndent input pos)) (fun tp =>
              andThen (parseNestedContent fuel input tp.2 isDelim
                  initialIndent) (fun sp =>
                some (Except.ok (tp.1 :: sp.1, sp.2))))
        else if indented && c.isDigit then
          if (checkOrderedListMarker input posInd).isSome then
            andThen (parseListItem fuel input posInd true
                (getCurrentIndent input pos)) (fun tp =>
              andThen (parseNestedContent fuel input tp.2 isDelim
                  initialIndent) (fun sp =>
                some (Except.ok (tp.1 :: sp.1, sp.2))))
          else nestedStep fuel input posInd isDelim initialIndent
        else nestedStep fuel input posInd isDelim initialIndent
    else some (Except.ok ([], pos))
termination_by structural fuel _ _ _ _ => fuel

/-- The tail of one `parse_nested_content` loop iteration: run `next_token`
and continue the loop. -/
def nestedStep : Nat → List Char → Nat → (Char → Bool) → Nat →
    Option (Except LexerError (List Token × Nat))
  | 0, _, _, _, _ => none
  | fuel + 1, input, pos, isDelim, initialIndent =>
    andThen (nextToken fuel input pos) (fun tp =>
      andThen (parseNestedContent fuel input tp.2 isDelim initialIndent)
        (fun sp =>
          some (Except.ok ((match tp.1 with
            | some t => t :: sp.1
            | none => sp.1), sp.2))))
termination_by structural fuel _ _ _ _ => fuel

/-- `Lexer::parse_list_item`. -/
def parseListItem : Nat → List Char → Nat → Bool → Nat →
    Option (Except LexerError (Token × Nat))
  | 0, _, _, _, _ => none
  | fuel + 1, input, pos, ordered, indentLevel =>
    let number :=
      if ordered then checkOrderedListMarker input pos else none
    let pos :=
      if ordered then
        pos + countWhile (fun c => c.isDigit || c == '.') (input.drop pos)
      else pos + 1
    let pos := skipWhitespace input pos
    andThen (parseListItemContent fuel input pos) (fun cp =>
      let pos :=
        if cp.2 < input.length && currentChar input cp.2 == '\n' then
          cp.2 + 1
        else cp.2
      andThen (parseListItemNested fuel input pos indentLevel) (fun np =>
        some (Except.ok
          (Token.listItem (cp.1 ++ np.1) ordered number, np.2))))
termination_by structural fuel _ _ _ _ => fuel

/-- The first loop of `Lexer::parse_list_item`: collect tokens on the same
line. -/
def parseListItemContent : Nat → List Char → Nat →
    Option (Except LexerError (List Token × Nat))
  | 0, _, _ => none
  | fuel + 1, input, pos =>
    if pos < input.length && currentChar input pos != '\n' then
      andThen (nextToken fuel input pos) (fun tp =>
        andThen (parseListItemContent fuel input tp.2) (fun sp =>
          some (Except.ok ((match tp.1 with
            | some t => t :: sp.1
            | none => sp.1), sp.2))))
    else some (Except.ok ([], pos))
termination_by structural fuel _ _ => fuel

/-- The second loop of `Lexer::parse_list_item`: collect more-indented
nested list items. -/
def parseListItemNested : Nat → List Char → Nat → Nat →
    Option (Except LexerError (List Token × Nat))
  | 0, _, _, _ => none
  | fuel + 1, input, pos, indentLevel =>
    if pos < input.length then
      let ci := getCurrentIndent input pos
      if ci ≤ indentLevel then some (Except.ok ([], pos))
      else
        let pos := pos + ci
        let c := currentChar input pos
        if c == '-' || c == '+' then
          let hr := checkHorizontalRule input pos
          if hr.1 then parseListItemNested fuel input hr.2 indentLevel
          else
            andThen (parseListItem fuel input pos false ci) (fun tp =>
              andThen (parseListItemNested fuel input tp.2 indentLevel)
                (fun sp => some (Except.ok (tp.1 :: sp.1, sp.2))))
        else if c.isDigit then
          if (checkOrderedListMarker input pos).isSome then
            andThen (parseListItem fuel input pos true ci) (fun tp =>
              andThen (parseListItemNested fuel input tp.2 indentLevel)
                (fun sp => some (Except.ok (tp.1 :: sp.1, sp.2))))
          else parseListItemNested fuel input pos indentLevel
        else some (Except.ok ([], pos))
    else some (Except.ok ([], pos))
termination_by structural fuel _ _ _ => fuel

end

/-- Fuel budget used by the top-level entry point: ample for the inputs the
theorems below evaluate, since every recursive step consumes input. -/
def lexFuel (input : List Char) : Nat := 4 * input.length + 8

/-- `Lexer::parse`, composed with `Lexer::new`: tokenize a whole string. -/
def Lexer.parse (s : String) : Except LexerError (List Token) :=
  match parseTokens (lexFuel s.data) s.data 0 with
  | some r => r
  | none => Except.error LexerError.unexpectedEndOfInput

/-! ### `src/lib/styling.rs`: style descriptors and built-in defaults -/

/-- `TextAlignment` from `src/lib/styling.rs`. -/
inductive TextAlignment where
  | left
  | center
  | right
  | justify
deriving Repr, DecidableEq

/-- `Margins` from `src/lib/styling.rs` (point values; the `f32` fields are
modelled as rationals — they are only stored and copied, never computed
with). -/
structure Margins where
  top : Rat
  right : Rat
  bottom : Rat
  left : Rat
deriving Repr, DecidableEq

/-- `BasicTextStyle` from `src/lib/styling.rs`. -/
structure BasicTextStyle where
  size : Nat
  text_color : Option (Nat × Nat × Nat)
  before_spacing : Rat
  after_spacing : Rat
  alignment : Option TextAlignment
  font_family : Option String
  bold : Bool
  italic : Bool
  underline : Bool
  strikethrough : Bool
  background_color : Option (Nat × Nat × Nat)
deriving Repr, DecidableEq

/-- `BasicTextStyle::new`. -/
def BasicTextStyle.new (size : Nat) (text_color : Option (Nat × Nat × Nat))
    (before_spacing after_spacing : Option Rat)
    (alignment : Option TextAlignment) (font_family : Option String)
    (bold italic underline strikethrough : Bool)
    (background_color : Option (Nat × Nat × Nat)) : BasicTextStyle :=
  { size := size
    text_color := text_color
    before_spacing := before_spacing.getD 0
    after_spacing := after_spacing.getD 0
    alignment := alignment
    font_family := font_family
    bold := bold
    italic := italic
    underline := underline
    strikethrough := strikethrough
    background_color := background_color }

/-- `StyleMatch` from `src/lib/styling.rs`. -/
structure StyleMatch where
  margins : Margins
  heading_1 : BasicTextStyle
  heading_2 : BasicTextStyle
  heading_3 : BasicTextStyle
  emphasis : BasicTextStyle
  strong_emphasis : BasicTextStyle
  code : BasicTextStyle
  block_quote : BasicTextStyle
  list_item : BasicTextStyle
  link : BasicTextStyle
  image : BasicTextStyle
  text : BasicTextStyle
  horizontal_rule : BasicTextStyle
deriving Repr, DecidableEq

/-- `impl Default for StyleMatch` from `src/lib/styling.rs`. -/
def StyleMatch.default : StyleMatch :=
  { margins := { top := 8, right := 8, bottom := 8, left := 8 }
    heading_1 := BasicTextStyle.new 14 (some (0, 0, 0)) (some (4/5))
      (some (1/2)) (some TextAlignment.center) none true false false false
      none
    heading_2 := BasicTextStyle.new 12 (some (0, 0, 0)) (some (4/5))
      (some (1/2)) (some TextAlignment.left) none true false false false
      none
    heading_3 := BasicTextStyle.new 10 (some (0, 0, 0)) (some (4/5))
      (some (1/2)) (some TextAlignment.left) none true false false false
      none
    emphasis := BasicTextStyle.new 8 (some (0, 0, 0)) none none none none
      false true false false none
    strong_emphasis := BasicTextStyle.new 8 (some (0, 0, 0)) none none none
      none true false false false none
    code := BasicTextStyle.new 8 (some (128, 128, 128)) (some (2/5))
      (some (2/5)) none (some "Roboto") false false false false
      (some (230, 230, 230))
    block_quote := BasicTextStyle.new 8 (some (128, 128, 128)) none none
      none none false true false false (some (245, 245, 245))
    list_item := BasicTextStyle.new 8 (some (0, 0, 0)) none (some (1/2))
      none none false false false false none
    link := BasicTextStyle.new 8 (some (128, 128, 128)) none none none none
      false false true false none
    image := BasicTextStyle.new 8 (some (0, 0, 0)) none none
      (some TextAlignment.center) none false false false false none
    text := BasicTextStyle.new 8 (some (0, 0, 0)) none none none none false
      false false false none
    horizontal_rule := BasicTextStyle.new 8 (some (0, 0, 0)) none
      (some (1/2)) none none false false false false none }

/-! ### `src/lib/config.rs`: the style resolver over decoded TOML values -/

/-- The subset of `toml::Value` that `config.rs` consumes: primitives and
tables (a table is an association list of key/value pairs). -/
inductive Value where
  | integer (i : Int)
  | float (q : Rat)
  | boolean (b : Bool)
  | str (s : String)
  | table (entries : List (String × Value))

/-- `Value::get`: look a key up in a table (`None` on non-tables). -/
def Value.get : Value → String → Option Value
  | Value.table entries, key => entries.lookup key
  | _, _ => none

/-- `Value::as_integer`. -/
def Value.asInteger : Value → Option Int
  | Value.integer i => some i
  | _ => none

/-- `Value::as_float`. -/
def Value.asFloat : Value → Option Rat
  | Value.float q => some q
  | _ => none

/-- `Value::as_bool`. -/
def Value.asBool : Value → Option Bool
  | Value.boolean b => some b
  | _ => none

/-- `Value::as_str`. -/
def Value.asStr : Value → Option String
  | Value.str s => some s
  | _ => none

/-- Rust's `i64 as u8` wrapping conversion. -/
def intAsU8 (i : Int) : Nat := (i % 256).toNat

/-- `parse_color` from `src/lib/config.rs`. -/
def parse_color (value : Option Value) (field : String) :
    Option (Nat × Nat × Nat) :=
  value.bind fun c =>
    (c.get field).bind fun color =>
      ((color.get "r").bind Value.asInteger).bind fun r =>
        ((color.get "g").bind Value.asInteger).bind fun g =>
          ((color.get "b").bind Value.asInteger).map fun b =>
            (intAsU8 r, intAsU8 g, intAsU8 b)

/-- `parse_alignment` from `src/lib/config.rs`: note that any string other
than the four recognized names maps to `Left`. -/
def parse_alignment (value : Option Value) : Option TextAlignment :=
  (value.bind Value.asStr).map fun s =>
    if s == "left" then TextAlignment.left
    else if s == "center" then TextAlignment.center
    else if s == "right" then TextAlignment.right
    else if s == "justify" then TextAlignment.justify
    else TextAlignment.left

/-- `MdPdfFont::find_match` from `src/lib/styling.rs`: every input maps to
Roboto. -/
def MdPdfFont.find_match (_family : Option String) : String := "Roboto"

/-- `map_font_family` from `src/lib/config.rs` (`find_match(..).file()`,
which is always `"Roboto"`). -/
def map_font_family (font : String) : Option String :=
  some (MdPdfFont.find_match (some font))

/-- `parse_style` from `src/lib/config.rs`: field-by-field merge of an
optional TOML style section over a default descriptor. -/
def parse_style (value : Option Value) (dflt : BasicTextStyle) :
    BasicTextStyle :=
  match value with
  | none => dflt
  | some styleConfig =>
    let style := dflt
    let style :=
      match (styleConfig.get "size").bind Value.asInteger with
      | some size => { style with size := intAsU8 size }
      | none => style
    let style :=
      match (styleConfig.get "beforespacing").bind Value.asFloat with
      | some spacing => { style with before_spacing := spacing }
      | none => style
    let style :=
      match (styleConfig.get "afterspacing").bind Value.asFloat with
      | some spacing => { style with after_spacing := spacing }
      | none => style
    let style :=
      match parse_color (some styleConfig) "textcolor" with
      | some color => { style with text_color := some color }
      | none => style
    let style :=
      match parse_color (some styleConfig) "backgroundcolor" with
      | some bgColor => { style with background_color := some bgColor }
      | none => style
    let style :=
      match parse_alignment (styleConfig.get "alignment") with
      | some alignment => { style with alignment := some alignment }
      | none => style
    let style :=
      match (styleConfig.get "fontfamily").bind Value.asStr with
      | some font => { style with font_family := map_font_family font }
      | none => style
    let style :=
      match (styleConfig.get "bold").bind Value.asBool with
      | some bold => { style with bold := bold }
      | none => style
    let style :=
      match (styleConfig.get "italic").bind Value.asBool with
      | some italic => { style with italic := italic }
      | none => style
    let style :=
      match (styleConfig.get "underline").bind Value.asBool with
      | some underline => { style with underline := underline }
      | none => style
    let style :=
      match (styleConfig.get "strikethrough").bind Value.asBool with
      | some strikethrough => { style with strikethrough := strikethrough }
      | none => style
    style

/-- The pure core of `load_config` from `src/lib/config.rs`: resolve a
decoded configuration value against the built-in defaults (the file reading
and TOML decoding that precede this are I/O and out of scope). -/
def load_config_from (config : Value) : StyleMatch :=
  let defaultStyle := StyleMatch.default
  let margins :=
    match config.get "margin" with
    | some m =>
      { top := ((m.get "top").bind Value.asFloat).getD 8
        right := ((m.get "right").bind Value.asFloat).getD 8
        bottom := ((m.get "bottom").bind Value.asFloat).getD 8
        left := ((m.get "left").bind Value.asFloat).getD 8 : Margins }
    | none => defaultStyle.margins
  { margins := margins
    heading_1 := parse_style ((config.get "heading").bind (fun h => h.get "1"))
      defaultStyle.heading_1
    heading_2 := parse_style ((config.get "heading").bind (fun h => h.get "2"))
      defaultStyle.heading_2
    heading_3 := parse_style ((config.get "heading").bind (fun h => h.get "3"))
      defaultStyle.heading_3
    emphasis := parse_style (config.get "emphasis") defaultStyle.emphasis
    strong_emphasis := parse_style (config.get "strong_emphasis")
      defaultStyle.strong_emphasis
    code := parse_style (config.get "code") defaultStyle.code
    block_quote := parse_style (config.get "block_quote")
      defaultStyle.block_quote
    list_item := parse_style (config.get "list_item") defaultStyle.list_item
    link := parse_style (config.get "link") defaultStyle.link
    image := parse_style (config.get "image") defaultStyle.image
    text := parse_style (config.get "text") defaultStyle.text
    horizontal_rule := parse_style (config.get "horizontal_rule")
      defaultStyle.horizontal_rule }

/-! ### `src/lib/pdf.rs`: block structuring and inline rendering -/

/-- `Block` from `src/lib/pdf.rs`. -/
inductive Block where
  | heading (content : List Token) (level : Nat)
  | paragraph (content : List Token)
  | list (items : List (List Token))
  | blockQuote (content : List Token)
  | codeBlock (language : String) (content : String)
  | horizontalRule
  | emptyLine
deriving Repr

/-- Whether a token is a `ListItem` (the pattern tested by the list-collecting
loop of `group_tokens`; the source's `Token::ListItem(content)` pattern binds
the item's content field). -/
def isListItemTok : Token → Bool
  | Token.listItem _ _ _ => true
  | _ => false

/-- The content field bound by the `Token::ListItem(content)` pattern. -/
def listItemContent : Token → List Token
  | Token.listItem c _ _ => c
  | _ => []

/-- Flushing the pending inline accumulator: `group_tokens` pushes it as a
`Paragraph` exactly when it is non-empty. -/
def flushAcc (blocks : List Block) (acc : List Token) : List Block :=
  if acc.isEmpty then blocks else blocks ++ [Block.paragraph acc]

/-- The loop of `Pdf::group_tokens`, with its three pieces of mutable state:
the blocks emitted so far, the pending inline accumulator, and the newline
counter. -/
def groupTokensAux : List Token → List Block → List Token → Nat → List Block
  | [], blocks, acc, _ => flushAcc blocks acc
  | Token.heading c l :: rest, blocks, acc, _ =>
    groupTokensAux rest (flushAcc blocks acc ++ [Block.heading c l]) [] 0
  | Token.listItem c o n :: rest, blocks, acc, _ =>
    let items :=
      (Token.listItem c o n :: rest).takeWhile isListItemTok
    let rest' := rest.dropWhile isListItemTok
    groupTokensAux rest'
      (flushAcc blocks acc ++ [Block.list (items.map listItemContent)]) [] 0
  | Token.blockQuote s :: rest, blocks, acc, _ =>
    groupTokensAux rest
      (flushAcc blocks acc ++ [Block.blockQuote [Token.text s]]) [] 0
  | Token.code lang content :: rest, blocks, acc, _ =>
    if content.contains '\n' then
      groupTokensAux rest
        (flushAcc blocks acc ++ [Block.codeBlock lang content]) [] 0
    else
      groupTokensAux rest blocks (acc ++ [Token.code lang content]) 0
  | Token.horizontalRule :: rest, blocks, acc, _ =>
    groupTokensAux rest (flushAcc blocks acc ++ [Block.horizontalRule]) [] 0
  | Token.newline :: rest, blocks, acc, nl =>
    if 2 ≤ nl + 1 then
      groupTokensAux rest (flushAcc blocks acc ++ [Block.emptyLine]) [] 0
    else groupTokensAux rest blocks (acc ++ [Token.newline]) (nl + 1)
  | Token.text s :: rest, blocks, acc, _ =>
    groupTokensAux rest blocks (acc ++ [Token.text s]) 0
  | Token.emphasis lvl c :: rest, blocks, acc, _ =>
    groupTokensAux rest blocks (acc ++ [Token.emphasis lvl c]) 0
  | Token.strongEmphasis c :: rest, blocks, acc, _ =>
    groupTokensAux rest blocks (acc ++ [Token.strongEmphasis c]) 0
  | Token.link t u :: rest, blocks, acc, _ =>
    groupTokensAux rest blocks (acc ++ [Token.link t u]) 0
  | Token.image _ _ :: rest, blocks, acc, _ =>
    groupTokensAux rest blocks acc 0
  | Token.htmlComment _ :: rest, blocks, acc, _ =>
    groupTokensAux rest blocks acc 0
  | Token.unknown _ :: rest, blocks, acc, _ =>
    groupTokensAux rest blocks acc 0
termination_by ts _ _ _ => ts.length
decreasing_by
  all_goals simp
  have h :
      (List.dropWhile isListItemTok rest).length ≤ rest.length :=
    (List.dropWhile_suffix isListItemTok).length_le
  omega

/-- `Pdf::group_tokens`. -/
def Pdf.groupTokens (tokens : List Token) : List Block :=
  groupTokensAux tokens [] [] 0

/-- The full front half of the pipeline of `lib.rs parse`: tokenize, then
group into blocks (`Lexer::parse` followed by `Pdf::group_tokens`). -/
def parseBlocks (s : String) : Except LexerError (List Block) :=
  (Lexer.parse s).map Pdf.groupTokens

/-- The subset of the backend `genpdfi::style::Style` that
`render_inline_tokens` manipulates: weight, slant and colour. -/
structure PdfStyle where
  bold : Bool
  italic : Bool
  color : Option (Nat × Nat × Nat)
deriving Repr, DecidableEq

/-- `Style::bold()`. -/
def PdfStyle.setBold (s : PdfStyle) : PdfStyle := { s with bold := true }

/-- `Style::italic()`. -/
def PdfStyle.setItalic (s : PdfStyle) : PdfStyle := { s with italic := true }

/-- `Style::with_color(..)`. -/
def PdfStyle.withColor (s : PdfStyle) (c : Nat × Nat × Nat) : PdfStyle :=
  { s with color := some c }

/-- One styled run pushed into the backend paragraph by
`render_inline_tokens` (`push_styled` or `push_link`). -/
inductive InlineRun where
  | styled (content : String) (style : PdfStyle)
  | linkRun (text : String) (url : String) (style : PdfStyle)
deriving Repr

mutual

/-- The per-token body of `Pdf::render_inline_tokens`: the runs pushed for
one token. -/
def renderInlineToken (sm : StyleMatch) (style : PdfStyle) :
    Token → List InlineRun
  | Token.text content => [InlineRun.styled content style]
  | Token.emphasis level content =>
    let nestedStyle :=
      if level == 1 then style.setItalic
      else if level == 2 then style.setBold
      else style.setBold.setItalic
    renderInlineTokens sm nestedStyle content
  | Token.strongEmphasis content =>
    renderInlineTokens sm style.setBold content
  | Token.link text url =>
    let linkStyle :=
      match sm.link.text_color with
      | some color => style.withColor color
      | none => style
    [InlineRun.linkRun (text ++ " ") url linkStyle]
  | Token.code _ content =>
    let codeStyle :=
      match sm.code.text_color with
      | some color => style.withColor color
      | none => style
    [InlineRun.styled content codeStyle]
  | Token.newline => []
  | _ => []

/-- `Pdf::render_inline_tokens`: all runs pushed for a token list. -/
def renderInlineTokens (sm : StyleMatch) (style : PdfStyle) :
    List Token → List InlineRun
  | [] => []
  | t :: ts => renderInlineToken sm style t ++ renderInlineTokens sm style ts

end

/-! ### Predicates used to state the claims -/

/-- A character with no role in the lexer's special-token dispatch or in
`parse_text`'s stopping condition: not a newline and not one of the
characters `# * _ [ !`, a backtick, or `<` (which can open an HTML
comment).  `parse_text` accumulates such characters verbatim. -/
def plainChar (c : Char) : Bool :=
  !(c == '#' || c == '*' || c == '_' || c == btick || c == '[' || c == '!' ||
    c == '<' || c == '\n')

/-- An ordinary text character: one that receives no special treatment
anywhere in the lexer — `plainChar`, and additionally not whitespace (which
`next_token` skips at a token boundary), not `>`, `-`, `+` and not a digit
(which dispatch to blockquote/list/rule parsing at a line start). -/
def ordinaryChar (c : Char) : Bool :=
  plainChar c && !rustIsWhitespace c && !(c == '>' || c == '-' || c == '+') &&
    !c.isDigit

/-- An input made of ordinary text characters and single (non-consecutive)
newlines. -/
def onlyTextAndSingleNewlines (l : List Char) : Prop :=
  (∀ c ∈ l, ordinaryChar c = true ∨ c = '\n') ∧
    List.Chain' (fun a b => ¬(a = '\n' ∧ b = '\n')) l

/-- Whether a token is a `Text` or a `Newline`. -/
def isTextOrNewline : Token → Bool
  | Token.text _ => true
  | Token.newline => true
  | _ => false

/-- The characters a token contributes when concatenating `Text` and
`Newline` token contents. -/
def tokenContentChars : Token → List Char
  | Token.text s => s.data
  | Token.newline => ['\n']
  | _ => []

/-- Concatenation of the contents of a token list. -/
def tokensContent : List Token → List Char
  | [] => []
  | t :: ts => tokenContentChars t ++ tokensContent ts

mutual

/-- Every `Heading` anywhere inside a token has a positive level. -/
def tokenHeadingsOK : Token → Bool
  | Token.heading children level => 1 ≤ level && tokensHeadingsOK children
  | Token.emphasis _ content => tokensHeadingsOK content
  | Token.strongEmphasis children => tokensHeadingsOK children
  | Token.listItem content _ _ => tokensHeadingsOK content
  | _ => true

/-- Every `Heading` anywhere inside a token list has a positive level. -/
def tokensHeadingsOK : List Token → Bool
  | [] => true
  | t :: ts => tokenHeadingsOK t && tokensHeadingsOK ts

end

/-! ## Theorems -/

/-! ### Helper lemmas about positions, suffixes, and scanning loops -/

theorem get?_eq_head?_drop (l : List Char) (n : Nat) :
    l.get? n = (l.drop n).head? := by
  induction l generalizing n with
  | nil => simp
  | cons a t ih => cases n <;> simp [ih]

theorem currentChar_of_drop {input : List Char} {pos : Nat} {c : Char}
    {l : List Char} (h : input.drop pos = c :: l) :
    currentChar input pos = c := by
  unfold currentChar
  rw [get?_eq_head?_drop, h]
  rfl

theorem lt_length_of_drop {input : List Char} {pos : Nat} {c : Char}
    {l : List Char} (h : input.drop pos = c :: l) : pos < input.length := by
  by_contra hn
  push_neg at hn
  rw [List.drop_eq_nil_of_le hn] at h
  exact absurd h (by simp)

theorem drop_add_right (input : List Char) (pos n : Nat) :
    input.drop (pos + n) = (input.drop pos).drop n := by
  rw [List.drop_drop]

theorem drop_of_drop_append {input : List Char} {pos : Nat}
    {l₁ l₂ : List Char} (h : input.drop pos = l₁ ++ l₂) :
    input.drop (pos + l₁.length) = l₂ := by
  rw [drop_add_right, h, List.drop_left]

theorem drop_succ_of_drop {input : List Char} {pos : Nat} {c : Char}
    {l : List Char} (h : input.drop pos = c :: l) :
    input.drop (pos + 1) = l :=
  @drop_of_drop_append input pos [c] l (by simpa using h)

theorem currentChar_eq_of_le_length {input : List Char} {pos : Nat}
    (h : input.length ≤ pos) : currentChar input pos = Char.ofNat 0 := by
  unfold currentChar
  rw [get?_eq_head?_drop, List.drop_eq_nil_of_le h]
  rfl

theorem countWhile_cons_neg {p : Char → Bool} {c : Char} (l : List Char)
    (h : p c = false) : countWhile p (c :: l) = 0 := by
  simp [countWhile, h]

theorem countWhile_append_all {p : Char → Bool} {l₁ : List Char}
    (l₂ : List Char) (h : ∀ c ∈ l₁, p c = true) :
    countWhile p (l₁ ++ l₂) = l₁.length + countWhile p l₂ := by
  induction l₁ with
  | nil => simp
  | cons a t ih =>
    have ha := h a (by simp)
    have ht := ih (fun c hc => h c (by simp [hc]))
    simp [countWhile, ha, ht]
    omega

theorem skipWhitespace_eq_self {input : List Char} {pos : Nat}
    (h : countWhile isSkippableWs (input.drop pos) = 0) :
    skipWhitespace input pos = pos := by
  simp [skipWhitespace, h]

theorem countWhile_skippable_zero_of_not_ws {c : Char} (l : List Char)
    (h : rustIsWhitespace c = false) :
    countWhile isSkippableWs (c :: l) = 0 :=
  countWhile_cons_neg l (by simp [isSkippableWs, h])

theorem adjustPos_eq_self {input : List Char} {pos : Nat}
    (h : skipWhitespace input pos = pos) :
    adjustPos input pos = pos := by
  unfold adjustPos
  rw [h, ite_self]

theorem isPrefixOf_append (l₁ l₂ : List Char) :
    List.isPrefixOf l₁ (l₁ ++ l₂) = true := by
  simp [List.isPrefixOf_iff_prefix]

theorem drop_eq_cons_of_lt {input : List Char} {pos : Nat}
    (h : pos < input.length) :
    input.drop pos = currentChar input pos :: input.drop (pos + 1) := by
  rw [List.drop_eq_getElem_cons h]
  unfold currentChar
  rw [get?_eq_head?_drop, List.drop_eq_getElem_cons h]
  rfl

theorem andThen_eq_ok {α β : Type} {r : Option (Except LexerError α)}
    {f : α → Option (Except LexerError β)} {b : β}
    (h : andThen r f = some (Except.ok b)) :
    ∃ a, r = some (Except.ok a) ∧ f a = some (Except.ok b) := by
  cases r with
  | none => simp [andThen] at h
  | some e =>
    cases e with
    | error e => simp [andThen] at h
    | ok a => exact ⟨a, rfl, h⟩

theorem andThen_ok {α β : Type} {r : Option (Except LexerError α)} {a : α}
    (h : r = some (Except.ok a)) (f : α → Option (Except LexerError β)) :
    andThen r f = f a := by
  rw [h]
  rfl

theorem andThen_err {α β : Type} {r : Option (Except LexerError α)}
    {e : LexerError} (h : r = some (Except.error e))
    (f : α → Option (Except LexerError β)) :
    andThen r f = some (Except.error e) := by
  rw [h]
  rfl

theorem liftTok_eq_ok {r : Option (Except LexerError (Token × Nat))}
    {t : Token} {p : Nat}
    (h : liftTok r = some (Except.ok (some t, p))) :
    r = some (Except.ok (t, p)) := by
  cases r with
  | none => simp [liftTok] at h
  | some e =>
    cases e with
    | error e => simp [liftTok, Except.map] at h
    | ok a =>
      simp [liftTok, Except.map] at h
      obtain ⟨h1, h2⟩ := h
      cases a
      simp_all

theorem liftTok_some_eq_ok {r : Except LexerError (Token × Nat)}
    {t : Token} {p : Nat}
    (h : liftTok (some r) = some (Except.ok (some t, p))) :
    r = Except.ok (t, p) := by
  have h2 := liftTok_eq_ok h
  simpa using h2

theorem tokensHeadingsOK_append {l₁ l₂ : List Token}
    (h₁ : tokensHeadingsOK l₁ = true) (h₂ : tokensHeadingsOK l₂ = true) :
    tokensHeadingsOK (l₁ ++ l₂) = true := by
  induction l₁ with
  | nil => simpa using h₂
  | cons t ts ih =>
    simp only [tokensHeadingsOK, Bool.and_eq_true] at h₁ ⊢
    exact ⟨h₁.1, by simpa using ih h₁.2⟩

theorem parseText_ok_shape {input : List Char} {pos : Nat} {t : Token}
    {p : Nat} (h : parseText input pos = Except.ok (t, p)) :
    ∃ s, t = Token.text s := by
  unfold parseText at h
  split at h
  dsimp only [] at h
  split at h
  · simp at h
  · exact ⟨_, by cases h; rfl⟩

theorem parseImage_ok_shape {input : List Char} {pos : Nat} {t : Token}
    {p : Nat} (h : parseImage input pos = Except.ok (t, p)) :
    ∃ a u, t = Token.image a u := by
  unfold parseImage at h
  dsimp only [] at h
  split at h
  · split at h
    · exact ⟨_, _, by cases h; rfl⟩
    · simp at h
  · simp at h

theorem parseHtmlComment_ok_shape {input : List Char} {pos : Nat}
    {t : Token} {p : Nat}
    (h : parseHtmlComment input pos = Except.ok (t, p)) :
    ∃ s, t = Token.htmlComment s := by
  unfold parseHtmlComment at h
  dsimp only [] at h
  split at h
  · exact ⟨_, by cases h; rfl⟩
  · simp at h

theorem parseCode_fst_shape (input : List Char) (pos : Nat) :
    ∃ l c, (parseCode input pos).1 = Token.code l c := by
  unfold parseCode
  dsimp only []
  split
  · exact ⟨_, _, rfl⟩
  · exact ⟨_, _, rfl⟩

theorem parseLink_fst_shape (input : List Char) (pos : Nat) :
    ∃ a u, (parseLink input pos).1 = Token.link a u := by
  unfold parseLink
  dsimp only []
  split
  · exact ⟨_, _, rfl⟩
  · exact ⟨_, _, rfl⟩

theorem parseBlockquote_fst_shape (input : List Char) (pos : Nat) :
    ∃ s, (parseBlockquote input pos).1 = Token.blockQuote s :=
  ⟨_, rfl⟩

theorem countWhile_pos_of_cur {input : List Char} {pos : Nat} {c : Char}
    {p : Char → Bool} (hc : currentChar input pos = c)
    (hne : c ≠ Char.ofNat 0) (hp : p c = true) :
    1 ≤ countWhile p (input.drop pos) := by
  have hlt : pos < input.length := by
    by_contra hn
    push_neg at hn
    rw [currentChar_eq_of_le_length hn] at hc
    exact hne hc.symm
  rw [drop_eq_cons_of_lt hlt, hc]
  simp [countWhile, hp]

/-! ### Forward-computation lemmas for the lexer -/

theorem plainChar_spec {c : Char} (h : plainChar c = true) :
    c ≠ '#' ∧ c ≠ '*' ∧ c ≠ '_' ∧ c ≠ btick ∧ c ≠ '[' ∧ c ≠ '!' ∧
      c ≠ '<' ∧ c ≠ '\n' := by
  simp only [plainChar, Bool.not_eq_true', Bool.or_eq_false_iff,
    beq_eq_false_iff_ne, ne_eq] at h
  tauto

theorem ordinaryChar_plain {c : Char} (h : ordinaryChar c = true) :
    plainChar c = true := by
  simp only [ordinaryChar, Bool.and_eq_true] at h
  exact h.1.1.1

theorem ordinaryChar_spec {c : Char} (h : ordinaryChar c = true) :
    rustIsWhitespace c = false ∧ c ≠ '>' ∧ c ≠ '-' ∧ c ≠ '+' ∧
      c.isDigit = false := by
  simp only [ordinaryChar, Bool.and_eq_true, Bool.not_eq_true',
    Bool.or_eq_false_iff, beq_eq_false_iff_ne, ne_eq] at h
  tauto

theorem textScanList_cons_plain {c : Char} (l : List Char)
    (h : plainChar c = true) :
    textScanList (c :: l) = c :: textScanList l := by
  obtain ⟨h1, h2, h3, h4, h5, h6, h7, h8⟩ := plainChar_spec h
  simp [textScanList, h1, h2, h3, h4, h5, h6, h7, h8]

theorem textScanList_append_plain {T : List Char} (rest : List Char)
    (h : ∀ c ∈ T, plainChar c = true) :
    textScanList (T ++ rest) = T ++ textScanList rest := by
  induction T with
  | nil => simp
  | cons c cs ih =>
    rw [List.cons_append, textScanList_cons_plain _ (h c (by simp)),
      ih (fun x hx => h x (by simp [hx])), List.cons_append]

theorem parseText_run {input : List Char} {pos : Nat} {t0 : Char}
    {T rest : List Char}
    (hdrop : input.drop pos = (t0 :: T) ++ rest)
    (hplain : ∀ c ∈ t0 :: T, plainChar c = true)
    (ht0 : t0 ≠ ' ')
    (hstop : textScanList rest = []) :
    parseText input pos =
      Except.ok (Token.text (String.mk (t0 :: T)),
        pos + (t0 :: T).length) := by
  have hcur : currentChar input pos = t0 := currentChar_of_drop (by
    simpa using hdrop)
  have hscan : textScanList (input.drop pos) = t0 :: T := by
    rw [hdrop, textScanList_append_plain _ hplain, hstop, List.append_nil]
  have hlead : (decide (0 < pos) && (currentChar input pos == ' ')) =
      false := by
    rw [hcur]
    simp [ht0]
  have h0 : ("" ++ String.mk (t0 :: T)) = String.mk (t0 :: T) := by
    have : ("" : String) = String.mk [] := rfl
    rw [this]
    rfl
  have hne : (String.mk (t0 :: T)).isEmpty = false := by
    by_contra hx
    rw [Bool.not_eq_false, String.isEmpty_iff] at hx
    have h2 := congrArg String.data hx
    simp at h2
  unfold parseText
  simp only [hlead, Bool.false_eq_true, if_false, hscan]
  simp only [h0, hne, Bool.false_eq_true, if_false]

theorem nextToken_text {f : Nat} {input : List Char} {pos : Nat}
    {t0 : Char} {T rest : List Char}
    (hdrop : input.drop pos = (t0 :: T) ++ rest)
    (hplain : ∀ c ∈ t0 :: T, plainChar c = true)
    (hnw : rustIsWhitespace t0 = false)
    (hdisp : (t0 ≠ '>' ∧ t0 ≠ '-' ∧ t0 ≠ '+' ∧ t0.isDigit = false) ∨
      isAtLineStart input pos = false)
    (hstop : textScanList rest = []) :
    nextToken (f + 1) input pos =
      some (Except.ok (some (Token.text (String.mk (t0 :: T))),
        pos + (t0 :: T).length)) := by
  have hdrop' : input.drop pos = t0 :: (T ++ rest) := by simpa using hdrop
  have hcur : currentChar input pos = t0 := currentChar_of_drop hdrop'
  have hlt : pos < input.length := lt_length_of_drop hdrop'
  have hadj : adjustPos input pos = pos :=
    adjustPos_eq_self (skipWhitespace_eq_self (by
      rw [hdrop']
      exact countWhile_skippable_zero_of_not_ws _ hnw))
  obtain ⟨h1, h2, h3, h4, h5, h6, h7, h8⟩ :=
    plainChar_spec (hplain t0 (by simp))
  have hb1 : (t0 == '#') = false := by simp [h1]
  have hb2 : (t0 == '*') = false := by simp [h2]
  have hb3 : (t0 == '_') = false := by simp [h3]
  have hb4 : (t0 == btick) = false := by simp [h4]
  have hb5 : (t0 == '[') = false := by simp [h5]
  have hb6 : (t0 == '!') = false := by simp [h6]
  have hb7 : (t0 == '<') = false := by simp [h7]
  have hb8 : (t0 == '\n') = false := by simp [h8]
  have hg1 : ((t0 == '>') && isAtLineStart input pos) = false := by
    rcases hdisp with ⟨hx, -, -, -⟩ | hls
    · simp [hx]
    · simp [hls]
  have hg2 : (((t0 == '-') || (t0 == '+')) && isAtLineStart input pos) =
      false := by
    rcases hdisp with ⟨-, hx, hy, -⟩ | hls
    · simp [hx, hy]
    · simp [hls]
  have hg3 : (t0.isDigit && isAtLineStart input pos) = false := by
    rcases hdisp with ⟨-, -, -, hx⟩ | hls
    · simp [hx]
    · simp [hls]
  rw [nextToken.eq_2, hadj]
  dsimp only []
  rw [if_neg (by omega), hcur]
  simp only [hb1, hb2, hb3, hb4, hb5, hb6, hb7, hb8, hg1, hg2, hg3,
    Bool.false_and, Bool.false_or, Bool.or_false, Bool.false_eq_true,
    if_false]
  rw [parseText_run hdrop hplain (fun hsp => by
    rw [hsp] at hnw
    exact absurd hnw (by decide)) hstop]
  rfl

theorem nextToken_newline {f : Nat} {input : List Char} {pos : Nat}
    {rest : List Char} (hdrop : input.drop pos = '\n' :: rest) :
    nextToken (f + 1) input pos =
      some (Except.ok (some Token.newline, pos + 1)) := by
  have hcur : currentChar input pos = '\n' := currentChar_of_drop hdrop
  have hlt : pos < input.length := lt_length_of_drop hdrop
  have hadj : adjustPos input pos = pos :=
    adjustPos_eq_self (skipWhitespace_eq_self (by
      rw [hdrop]
      exact countWhile_cons_neg _ (by decide)))
  have hbt : ('\n' == btick) = false := by decide
  rw [nextToken.eq_2, hadj]
  dsimp only []
  rw [if_neg (by omega), hcur]
  simp [parseNewline, hbt]

theorem nextToken_emphasis {f : Nat} {input : List Char} {pos : Nat}
    {d : Char} (hcur : currentChar input pos = d)
    (hlt : pos < input.length) (hadj : adjustPos input pos = pos)
    (hd : d = '*' ∨ d = '_') :
    nextToken (f + 1) input pos = liftTok (parseEmphasis f input pos) := by
  rw [nextToken.eq_2, hadj]
  dsimp only []
  rw [if_neg (by omega), hcur]
  rcases hd with rfl | rfl <;> simp

theorem parseTokens_past_end {f : Nat} {input : List Char} {pos : Nat}
    (h : input.length ≤ pos) :
    parseTokens (f + 1) input pos = some (Except.ok []) := by
  rw [parseTokens.eq_2, if_neg (by omega)]

theorem get?_replicate_append {d : Char} (rest : List Char) :
    ∀ n i, i < n → (List.replicate n d ++ rest).get? i = some d := by
  intro n
  induction n with
  | zero => intro i h; omega
  | succ m ih =>
    intro i h
    rw [List.replicate_succ]
    cases i with
    | zero => rfl
    | succ j => simpa using ih j (by omega)

theorem indentOf_cons_other {c : Char} (l : List Char) (h1 : c ≠ ' ')
    (h2 : c ≠ '\t') : indentOf (c :: l) = 0 := by
  rw [indentOf.eq_def]
  split
  · simp_all
  · simp_all
  · rfl

theorem isPrefixOf_self_char (l : List Char) :
    List.isPrefixOf l l = true := by
  simp [List.isPrefixOf_iff_prefix]

theorem countWhile_replicate_self (d : Char) (n : Nat) (l : List Char) :
    countWhile (fun c => c == d) (List.replicate n d ++ l) =
      n + countWhile (fun c => c == d) l := by
  rw [countWhile_append_all l (fun c hc => by
    rw [List.eq_of_mem_replicate hc]
    simp), List.length_replicate]

/-- One iteration of `parse_nested_content` over a plain text run, followed
by a stop: either the end of the input or a closing delimiter. -/
theorem parseNestedContent_text_stop (k : Nat) {input : List Char}
    {pos : Nat} {d t0 : Char} {T' rest : List Char}
    (hdrop : input.drop pos = (t0 :: T') ++ rest)
    (hplain : ∀ c ∈ t0 :: T', plainChar c = true)
    (hnw : rustIsWhitespace t0 = false)
    (hls : isAtLineStart input pos = false)
    (ht0d : (t0 == d) = false)
    (hstop : textScanList rest = [])
    (hrest : rest = [] ∨ ∃ rest2, rest = d :: rest2) :
    parseNestedContent (k + 3) input pos (fun c => c == d) 0 =
      some (Except.ok ([Token.text (String.mk (t0 :: T'))],
        pos + (t0 :: T').length)) := by
  have hdrop' : input.drop pos = t0 :: (T' ++ rest) := by simpa using hdrop
  have hlt : pos < input.length := lt_length_of_drop hdrop'
  have hcur : currentChar input pos = t0 := currentChar_of_drop hdrop'
  have hdrop2 : input.drop (pos + (t0 :: T').length) = rest :=
    drop_of_drop_append hdrop
  rw [parseNestedContent.eq_2]
  dsimp only []
  rw [if_pos hlt, hcur, if_neg (by simp [ht0d])]
  simp only [hls, Bool.false_and, Bool.false_eq_true, if_false]
  rw [nestedStep.eq_2, nextToken_text hdrop hplain hnw (Or.inr hls) hstop]
  simp only [andThen]
  rw [parseNestedContent.eq_2]
  rcases hrest with rfl | ⟨rest2, rfl⟩
  · have hge : input.length ≤ pos + (t0 :: T').length := by
      by_contra hx
      push_neg at hx
      rw [drop_eq_cons_of_lt hx] at hdrop2
      simp at hdrop2
    rw [if_neg (by omega)]
  · have hlt2 : pos + (t0 :: T').length < input.length :=
      lt_length_of_drop hdrop2
    have hcur2 : currentChar input (pos + (t0 :: T').length) = d :=
      currentChar_of_drop hdrop2
    rw [if_pos hlt2, hcur2, if_pos (by simp)]

/-- The run of `parse_emphasis` on a correctly closed delimiter run around
plain text: `d^L T d^L` from position 0. -/
theorem parseEmphasis_run_closed (k : Nat) {d t0 : Char} {L : Nat}
    {T' : List Char}
    (hd : d = '*' ∨ d = '_') (hL : 1 ≤ L)
    (hplain : ∀ c ∈ t0 :: T', plainChar c = true)
    (hnw : rustIsWhitespace t0 = false) :
    parseEmphasis (k + 4)
        (List.replicate L d ++ (t0 :: T') ++ List.replicate L d) 0 =
      some (Except.ok (Token.emphasis (min L 3)
          [Token.text (String.mk (t0 :: T')), Token.text " "],
        L + (t0 :: T').length + L)) := by
  obtain ⟨L1, rfl⟩ : ∃ L1, L = L1 + 1 := ⟨L - 1, by omega⟩
  set input := List.replicate (L1 + 1) d ++ (t0 :: T') ++
    List.replicate (L1 + 1) d with hinput
  obtain ⟨h1, h2, h3, h4, h5, h6, h7, h8⟩ := plainChar_spec
    (hplain t0 (by simp))
  have hdn : d ≠ '\n' := by rcases hd with rfl | rfl <;> decide
  have ht0d : (t0 == d) = false := by
    rcases hd with rfl | rfl <;> simp [h2, h3]
  have hdrop0 : input.drop 0 = List.replicate (L1 + 1) d ++
      ((t0 :: T') ++ List.replicate (L1 + 1) d) := by
    rw [List.drop_zero, hinput, List.append_assoc]
  have hcur0 : currentChar input 0 = d := by
    have hx : input.drop 0 = d :: (List.replicate L1 d ++
        ((t0 :: T') ++ List.replicate (L1 + 1) d)) := by
      rw [hdrop0, List.replicate_succ]
      rfl
    exact currentChar_of_drop hx
  have hcount : countWhile (fun c => c == d) (input.drop 0) = L1 + 1 := by
    have hc0 : countWhile (fun c => c == d)
        ((t0 :: T') ++ List.replicate (L1 + 1) d) = 0 := by
      rw [List.cons_append]
      exact @countWhile_cons_neg (fun c => c == d) t0
        (T' ++ List.replicate (L1 + 1) d) ht0d
    rw [hdrop0, countWhile_replicate_self, hc0]
  have hdropL' : input.drop (L1 + 1) =
      (t0 :: T') ++ List.replicate (L1 + 1) d := by
    have h9 := drop_of_drop_append hdrop0
    rw [List.length_replicate] at h9
    simpa using h9
  have ht0sp : t0 ≠ ' ' := fun hx => by
    rw [hx] at hnw
    exact absurd hnw (by decide)
  have ht0tab : t0 ≠ '\t' := fun hx => by
    rw [hx] at hnw
    exact absurd hnw (by decide)
  have hind : getCurrentIndent input (L1 + 1) = 0 := by
    unfold getCurrentIndent
    rw [hdropL']
    exact indentOf_cons_other _ ht0sp ht0tab
  have hls : isAtLineStart input (L1 + 1) = false := by
    unfold isAtLineStart
    rw [hinput]
    rw [show L1 + 1 - 1 = L1 from by omega]
    rw [List.append_assoc, get?_replicate_append _ _ L1 (by omega)]
    simp [hdn]
  have hdropP : input.drop ((L1 + 1) + (t0 :: T').length) =
      List.replicate (L1 + 1) d := by
    have h9 := drop_of_drop_append hdropL'
    simpa using h9
  have hstop : textScanList (List.replicate (L1 + 1) d) = [] := by
    rw [List.replicate_succ]
    rcases hd with rfl | rfl <;> rfl
  have hNC := parseNestedContent_text_stop k hdropL' hplain
    hnw hls ht0d hstop (Or.inr ⟨List.replicate L1 d, by
      rw [List.replicate_succ]⟩)
  rw [parseEmphasis.eq_2]
  dsimp only []
  rw [hcur0, hcount]
  simp only [Nat.zero_add]
  rw [hind, hNC]
  simp only [andThen]
  rw [hdropP, if_pos (isPrefixOf_self_char _)]
  simp

/-- The run of `parse_emphasis` on an unclosed delimiter run: `d^L T` with
no closing delimiters fails with the unmatched-emphasis error. -/
theorem parseEmphasis_run_unclosed (k : Nat) {d t0 : Char} {L : Nat}
    {T' : List Char}
    (hd : d = '*' ∨ d = '_') (hL : 1 ≤ L)
    (hplain : ∀ c ∈ t0 :: T', plainChar c = true)
    (hnw : rustIsWhitespace t0 = false) :
    parseEmphasis (k + 4) (List.replicate L d ++ (t0 :: T')) 0 =
      some (Except.error (LexerError.unknownToken
        ("Unmatched emphasis at position " ++ Nat.repr 0))) := by
  obtain ⟨L1, rfl⟩ : ∃ L1, L = L1 + 1 := ⟨L - 1, by omega⟩
  set input := List.replicate (L1 + 1) d ++ (t0 :: T') with hinput
  obtain ⟨h1, h2, h3, h4, h5, h6, h7, h8⟩ := plainChar_spec
    (hplain t0 (by simp))
  have hdn : d ≠ '\n' := by rcases hd with rfl | rfl <;> decide
  have ht0d : (t0 == d) = false := by
    rcases hd with rfl | rfl <;> simp [h2, h3]
  have hdrop0 : input.drop 0 = List.replicate (L1 + 1) d ++ (t0 :: T') := by
    rw [List.drop_zero, hinput]
  have hcur0 : currentChar input 0 = d := by
    have hx : input.drop 0 = d :: (List.replicate L1 d ++ (t0 :: T')) := by
      rw [hdrop0, List.replicate_succ]
      rfl
    exact currentChar_of_drop hx
  have hcount : countWhile (fun c => c == d) (input.drop 0) = L1 + 1 := by
    rw [hdrop0, countWhile_replicate_self,
      @countWhile_cons_neg (fun c => c == d) t0 T' ht0d]
  have hdropL' : input.drop (L1 + 1) = t0 :: T' := by
    have h9 := drop_of_drop_append hdrop0
    rw [List.length_replicate] at h9
    simpa using h9
  have ht0sp : t0 ≠ ' ' := fun hx => by
    rw [hx] at hnw
    exact absurd hnw (by decide)
  have ht0tab : t0 ≠ '\t' := fun hx => by
    rw [hx] at hnw
    exact absurd hnw (by decide)
  have hind : getCurrentIndent input (L1 + 1) = 0 := by
    unfold getCurrentIndent
    rw [hdropL']
    exact indentOf_cons_other _ ht0sp ht0tab
  have hls : isAtLineStart input (L1 + 1) = false := by
    unfold isAtLineStart
    rw [hinput]
    rw [show L1 + 1 - 1 = L1 from by omega]
    rw [get?_replicate_append _ _ L1 (by omega)]
    simp [hdn]
  have hdropE : input.drop (L1 + 1) = (t0 :: T') ++ ([] : List Char) := by
    rw [List.append_nil]
    exact hdropL'
  have hdropEnd : input.drop ((L1 + 1) + (t0 :: T').length) =
      ([] : List Char) := by
    have h9 := drop_of_drop_append hdropE
    simpa using h9
  have hNC := parseNestedContent_text_stop k hdropE hplain
    hnw hls ht0d rfl (Or.inl rfl)
  have hf : List.isPrefixOf (List.replicate (L1 + 1) d)
      ([] : List Char) = false := by
    rw [List.replicate_succ]
    rfl
  rw [parseEmphasis.eq_2]
  dsimp only []
  rw [hcur0, hcount]
  simp only [Nat.zero_add]
  rw [hind, hNC]
  simp only [andThen]
  rw [hdropEnd, if_neg (by simp [hf])]

/-- `parse_tokens` at a position past the end of the input succeeds with the
empty token list, for any positive fuel. -/
theorem parseTokens_past_end1 {f : Nat} {input : List Char} {pos : Nat}
    (hf : 1 ≤ f) (h : input.length ≤ pos) :
    parseTokens f input pos = some (Except.ok []) := by
  obtain ⟨f1, rfl⟩ : ∃ f1, f = f1 + 1 := ⟨f - 1, by omega⟩
  exact parseTokens_past_end h

/-- `parse_tokens` on an input whose first token consumes the whole input:
the result is exactly that one token. -/
theorem parseTokens_single_tok {f : Nat} {input : List Char} {t : Token}
    {p : Nat} (hf : 1 ≤ f)
    (h : nextToken f input 0 = some (Except.ok (some t, p)))
    (hlen : 0 < input.length) (hp : input.length ≤ p) :
    parseTokens (f + 1) input 0 = some (Except.ok [t]) := by
  rw [parseTokens.eq_2, if_pos hlen, h]
  simp only [andThen]
  rw [parseTokens_past_end1 hf hp]

/-- A failing first token aborts the whole `parse_tokens` run with its
error. -/
theorem parseTokens_first_error {f : Nat} {input : List Char}
    {e : LexerError}
    (h : nextToken f input 0 = some (Except.error e))
    (hlen : 0 < input.length) :
    parseTokens (f + 1) input 0 = some (Except.error e) := by
  rw [parseTokens.eq_2, if_pos hlen, h]
  simp only [andThen]

/-- `Lexer::parse` is the fuelled token loop at the standard fuel. -/
theorem lexerParse_of_parseTokens {s : String}
    {r : Except LexerError (List Token)}
    (h : parseTokens (lexFuel s.data) s.data 0 = some r) :
    Lexer.parse s = r := by
  unfold Lexer.parse
  rw [h]

/-- `Lexer::parse` on a correctly closed emphasis run around plain text:
one `Emphasis` token whose content is the text plus a trailing space. -/
theorem lexerParse_emphasis_closed {d t0 : Char} {L : Nat} {T' : List Char}
    (hd : d = '*' ∨ d = '_') (hL : 1 ≤ L)
    (hplain : ∀ c ∈ t0 :: T', plainChar c = true)
    (hnw : rustIsWhitespace t0 = false) :
    Lexer.parse (String.mk (List.replicate L d ++ (t0 :: T') ++
        List.replicate L d)) =
      Except.ok [Token.emphasis (min L 3)
        [Token.text (String.mk (t0 :: T')), Token.text " "]] := by
  obtain ⟨L1, rfl⟩ : ∃ L1, L = L1 + 1 := ⟨L - 1, by omega⟩
  set input := List.replicate (L1 + 1) d ++ (t0 :: T') ++
    List.replicate (L1 + 1) d with hinput
  have hlen : input.length = L1 + 1 + (t0 :: T').length + (L1 + 1) := by
    rw [hinput, List.length_append, List.length_append,
      List.length_replicate]
  have hd0 : input.drop 0 = d :: (List.replicate L1 d ++
      ((t0 :: T') ++ List.replicate (L1 + 1) d)) := by
    rw [List.drop_zero, hinput, List.append_assoc, List.replicate_succ]
    rfl
  have hcur : currentChar input 0 = d := currentChar_of_drop hd0
  have hlt : 0 < input.length := lt_length_of_drop hd0
  have hadj : adjustPos input 0 = 0 :=
    adjustPos_eq_self (skipWhitespace_eq_self (by
      rw [hd0]
      exact countWhile_skippable_zero_of_not_ws _
        (by rcases hd with rfl | rfl <;> decide)))
  have hE := parseEmphasis_run_closed (4 * input.length + 2) hd hL
    hplain hnw
  rw [← hinput] at hE
  have hnext : nextToken (4 * input.length + 2 + 4 + 1) input 0 =
      some (Except.ok (some (Token.emphasis (min (L1 + 1) 3)
        [Token.text (String.mk (t0 :: T')), Token.text " "]),
        L1 + 1 + (t0 :: T').length + (L1 + 1))) := by
    rw [nextToken_emphasis hcur hlt hadj hd, hE]
    rfl
  have hfin : parseTokens (lexFuel input) input 0 =
      some (Except.ok [Token.emphasis (min (L1 + 1) 3)
        [Token.text (String.mk (t0 :: T')), Token.text " "]]) := by
    have hflex : lexFuel input = 4 * input.length + 2 + 4 + 1 + 1 := by
      unfold lexFuel
      omega
    rw [hflex]
    exact parseTokens_single_tok (by omega) hnext hlt (le_of_eq hlen)
  exact lexerParse_of_parseTokens hfin

/-- `Lexer::parse` on an unclosed emphasis run: the whole parse fails with
the unmatched-emphasis error. -/
theorem lexerParse_emphasis_unclosed {d t0 : Char} {L : Nat}
    {T' : List Char}
    (hd : d = '*' ∨ d = '_') (hL : 1 ≤ L)
    (hplain : ∀ c ∈ t0 :: T', plainChar c = true)
    (hnw : rustIsWhitespace t0 = false) :
    Lexer.parse (String.mk (List.replicate L d ++ (t0 :: T'))) =
      Except.error (LexerError.unknownToken
        ("Unmatched emphasis at position " ++ Nat.repr 0)) := by
  obtain ⟨L1, rfl⟩ : ∃ L1, L = L1 + 1 := ⟨L - 1, by omega⟩
  set input := List.replicate (L1 + 1) d ++ (t0 :: T') with hinput
  have hd0 : input.drop 0 = d :: (List.replicate L1 d ++ (t0 :: T')) := by
    rw [List.drop_zero, hinput, List.replicate_succ]
    rfl
  have hcur : currentChar input 0 = d := currentChar_of_drop hd0
  have hlt : 0 < input.length := lt_length_of_drop hd0
  have hadj : adjustPos input 0 = 0 :=
    adjustPos_eq_self (skipWhitespace_eq_self (by
      rw [hd0]
      exact countWhile_skippable_zero_of_not_ws _
        (by rcases hd with rfl | rfl <;> decide)))
  have hE := parseEmphasis_run_unclosed (4 * input.length + 2) hd hL
    hplain hnw
  rw [← hinput] at hE
  have hnext : nextToken (4 * input.length + 2 + 4 + 1) input 0 =
      some (Except.error (LexerError.unknownToken
        ("Unmatched emphasis at position " ++ Nat.repr 0))) := by
    rw [nextToken_emphasis hcur hlt hadj hd, hE]
    rfl
  have hfin : parseTokens (lexFuel input) input 0 =
      some (Except.error (LexerError.unknownToken
        ("Unmatched emphasis at position " ++ Nat.repr 0))) := by
    have hflex : lexFuel input = 4 * input.length + 2 + 4 + 1 + 1 := by
      unfold lexFuel
      omega
    rw [hflex]
    exact parseTokens_first_error hnext hlt
  exact lexerParse_of_parseTokens hfin

/-- Unpacking `ordinaryChar`, including plainness. -/
theorem ordinaryChar_props {c : Char} (h : ordinaryChar c = true) :
    plainChar c = true ∧ rustIsWhitespace c = false ∧
      c ≠ '>' ∧ c ≠ '-' ∧ c ≠ '+' ∧ c.isDigit = false := by
  simp only [ordinaryChar, Bool.and_eq_true, Bool.not_eq_true',
    Bool.or_eq_false_iff, beq_eq_false_iff_ne, ne_eq] at h
  tauto

/-- The head of a non-empty `dropWhile` residue fails the predicate. -/
theorem dropWhile_eq_cons_head_false {p : Char → Bool} :
    ∀ (l : List Char) {b : Char} {l₂ : List Char},
      l.dropWhile p = b :: l₂ → p b = false := by
  intro l
  induction l with
  | nil =>
    intro b l₂ h
    simp at h
  | cons a t ihp =>
    intro b l₂ h
    rw [List.dropWhile_cons] at h
    by_cases hpa : p a = true
    · rw [if_pos hpa] at h
      exact ihp h
    · rw [if_neg hpa] at h
      injection h with h1 h2
      subst h1
      simp at hpa
      exact hpa

/-- Members of a `takeWhile` prefix are members of the list and satisfy the
predicate. -/
theorem mem_takeWhile_props {p : Char → Bool} :
    ∀ (l : List Char) {a : Char}, a ∈ l.takeWhile p → a ∈ l ∧ p a = true := by
  intro l
  induction l with
  | nil =>
    intro a h
    simp at h
  | cons b t ihp =>
    intro a h
    rw [List.takeWhile_cons] at h
    by_cases hpb : p b = true
    · rw [if_pos hpb] at h
      rcases List.mem_cons.mp h with rfl | h2
      · exact ⟨List.mem_cons_self _ _, hpb⟩
      · obtain ⟨h3, h4⟩ := ihp h2
        exact ⟨List.mem_cons_of_mem _ h3, h4⟩
    · rw [if_neg hpb] at h
      simp at h

/-- Over a suffix made of ordinary characters and newlines, the token loop
succeeds, produces only `Text` and `Newline` tokens, and their concatenated
contents reproduce the suffix exactly. -/
theorem parseTokens_text_roundtrip : ∀ n f : Nat, ∀ input : List Char,
    ∀ pos : Nat, input.length - pos ≤ n → input.length - pos < f →
    (∀ c ∈ input.drop pos, ordinaryChar c = true ∨ c = '\n') →
    ∃ ts, parseTokens f input pos = some (Except.ok ts) ∧
      (∀ t ∈ ts, isTextOrNewline t = true) ∧
      tokensContent ts = input.drop pos := by
  intro n
  induction n using Nat.strong_induction_on with
  | _ n ih =>
    intro f input pos hn hf hchars
    by_cases hend : input.length ≤ pos
    · obtain ⟨f1, rfl⟩ : ∃ f1, f = f1 + 1 := ⟨f - 1, by omega⟩
      refine ⟨[], parseTokens_past_end hend, by simp, ?_⟩
      rw [List.drop_eq_nil_of_le hend]
      rfl
    · push_neg at hend
      obtain ⟨f2, rfl⟩ : ∃ f2, f = f2 + 1 + 1 := ⟨f - 2, by omega⟩
      obtain ⟨c0, hc0⟩ : ∃ c, currentChar input pos = c := ⟨_, rfl⟩
      have hdropc : input.drop pos = c0 :: input.drop (pos + 1) := by
        rw [← hc0]
        exact drop_eq_cons_of_lt hend
      by_cases hnl : c0 = '\n'
      · subst hnl
        have hnext : nextToken (f2 + 1) input pos =
            some (Except.ok (some Token.newline, pos + 1)) :=
          nextToken_newline hdropc
        obtain ⟨ts, hts, htn, hcont⟩ := ih (input.length - (pos + 1))
          (by omega) (f2 + 1) input (pos + 1) (le_refl _) (by omega)
          (fun c hc => hchars c (by
            rw [hdropc]
            exact List.mem_cons_of_mem _ hc))
        refine ⟨Token.newline :: ts, ?_, ?_, ?_⟩
        · rw [parseTokens.eq_2, if_pos hend, hnext]
          simp only [andThen]
          rw [hts]
        · intro t ht
          rcases List.mem_cons.mp ht with rfl | h2
          · rfl
          · exact htn t h2
        · rw [hdropc, ← hcont]
          rfl
      · have hcmem : c0 ∈ input.drop pos := by
          rw [hdropc]
          exact List.mem_cons_self _ _
        have hord : ordinaryChar c0 = true := by
          rcases hchars _ hcmem with h | h
          · exact h
          · exact absurd h hnl
        obtain ⟨hplainc, hnwc, hgt, hmin, hplus, hdig⟩ :=
          ordinaryChar_props hord
        obtain ⟨T2, rest, hsplit2, hT2mem, hreststop⟩ :
            ∃ T2 rest, input.drop (pos + 1) = T2 ++ rest ∧
              (∀ ch ∈ T2, ch ≠ '\n') ∧
              (rest = [] ∨ ∃ r', rest = '\n' :: r') := by
          refine ⟨(input.drop (pos + 1)).takeWhile (fun ch => !(ch == '\n')),
            (input.drop (pos + 1)).dropWhile (fun ch => !(ch == '\n')),
            (List.takeWhile_append_dropWhile _ _).symm, ?_, ?_⟩
          · intro ch hch
            have h2 := (mem_takeWhile_props _ hch).2
            simpa using h2
          · rcases hr : (input.drop (pos + 1)).dropWhile
                (fun ch => !(ch == '\n')) with _ | ⟨r0, r'⟩
            · exact Or.inl rfl
            · have hr0 := dropWhile_eq_cons_head_false _ hr
              have hr0n : r0 = '\n' := by simpa using hr0
              exact Or.inr ⟨r', by rw [hr0n]⟩
        have hsplit : input.drop pos = (c0 :: T2) ++ rest := by
          rw [hdropc, hsplit2, List.cons_append]
        have hplainT : ∀ ch ∈ c0 :: T2, plainChar ch = true := by
          intro ch hch
          rcases List.mem_cons.mp hch with rfl | h2
          · exact hplainc
          · have hmem : ch ∈ input.drop pos := by
              rw [hsplit]
              exact List.mem_append_left _ (List.mem_cons_of_mem _ h2)
            rcases hchars ch hmem with h | h
            · exact (ordinaryChar_props h).1
            · exact absurd h (hT2mem ch h2)
        have hstop : textScanList rest = [] := by
          rcases hreststop with rfl | ⟨r', rfl⟩
          · rfl
          · rfl
        have hnext : nextToken (f2 + 1) input pos =
            some (Except.ok (some (Token.text (String.mk (c0 :: T2))),
              pos + (c0 :: T2).length)) :=
          nextToken_text hsplit hplainT hnwc
            (Or.inl ⟨hgt, hmin, hplus, hdig⟩) hstop
        have hdroprest : input.drop (pos + (c0 :: T2).length) = rest :=
          drop_of_drop_append hsplit
        have hk : 1 ≤ (c0 :: T2).length := by simp
        obtain ⟨ts, hts, htn, hcont⟩ :=
          ih (input.length - (pos + (c0 :: T2).length)) (by omega)
            (f2 + 1) input (pos + (c0 :: T2).length) (le_refl _) (by omega)
            (fun ch hch => hchars ch (by
              rw [hsplit]
              refine List.mem_append_right _ ?_
              rw [← hdroprest]
              exact hch))
        refine ⟨Token.text (String.mk (c0 :: T2)) :: ts, ?_, ?_, ?_⟩
        · rw [parseTokens.eq_2, if_pos hend, hnext]
          simp only [andThen]
          rw [hts]
        · intro t ht
          rcases List.mem_cons.mp ht with rfl | h2
          · rfl
          · exact htn t h2
        · rw [hsplit, ← hdroprest, ← hcont]
          rfl

theorem tokensHeadingsOK_single_space :
    tokensHeadingsOK [Token.text " "] = true := by
  simp [tokensHeadingsOK, tokenHeadingsOK]

/-- The simultaneous invariant for all of the lexer's mutually recursive
parsing functions: at any fuel, every successfully produced token (or token
list) contains only `Heading`s with positive levels. -/
theorem lexer_headings_invariant : ∀ fuel : Nat,
    (∀ input pos ts, parseTokens fuel input pos = some (Except.ok ts) →
      tokensHeadingsOK ts = true) ∧
    (∀ input pos t p,
      nextToken fuel input pos = some (Except.ok (some t, p)) →
      tokenHeadingsOK t = true) ∧
    (∀ input pos t p, currentChar input pos = '#' →
      parseHeading fuel input pos = some (Except.ok (t, p)) →
      tokenHeadingsOK t = true) ∧
    (∀ input pos t p,
      parseEmphasis fuel input pos = some (Except.ok (t, p)) →
      tokenHeadingsOK t = true) ∧
    (∀ input pos d ind ts p,
      parseNestedContent fuel input pos d ind = some (Except.ok (ts, p)) →
      tokensHeadingsOK ts = true) ∧
    (∀ input pos d ind ts p,
      nestedStep fuel input pos d ind = some (Except.ok (ts, p)) →
      tokensHeadingsOK ts = true) ∧
    (∀ input pos o ind t p,
      parseListItem fuel input pos o ind = some (Except.ok (t, p)) →
      tokenHeadingsOK t = true) ∧
    (∀ input pos ts p,
      parseListItemContent fuel input pos = some (Except.ok (ts, p)) →
      tokensHeadingsOK ts = true) ∧
    (∀ input pos ind ts p,
      parseListItemNested fuel input pos ind = some (Except.ok (ts, p)) →
      tokensHeadingsOK ts = true) := by
  intro fuel
  induction fuel with
  | zero =>
    refine ⟨?_, ?_, ?_, ?_, ?_, ?_, ?_, ?_, ?_⟩ <;> intros <;>
      simp_all [parseTokens, nextToken, parseHeading, parseEmphasis,
        parseNestedContent, nestedStep, parseListItem,
        parseListItemContent, parseListItemNested]
  | succ f ih =>
    obtain ⟨ihT, ihN, ihH, ihE, ihNC, ihNS, ihLI, ihLC, ihLN⟩ := ih
    refine ⟨?_, ?_, ?_, ?_, ?_, ?_, ?_, ?_, ?_⟩
    -- parseTokens
    · intro input pos ts h
      simp only [parseTokens] at h
      split at h
      · obtain ⟨tp, hnt, h2⟩ := andThen_eq_ok h
        obtain ⟨toks, hpt, h3⟩ := andThen_eq_ok h2
        obtain ⟨tok, pos'⟩ := tp
        simp only [Option.some.injEq, Except.ok.injEq] at h3
        subst h3
        cases tok with
        | some t =>
          simp only [tokensHeadingsOK, Bool.and_eq_true]
          exact ⟨ihN _ _ _ _ hnt, ihT _ _ _ hpt⟩
        | none => exact ihT _ _ _ hpt
      · simp only [Option.some.injEq, Except.ok.injEq] at h
        subst h
        rfl
    -- nextToken
    · intro input pos t p h
      rw [nextToken.eq_2] at h
      generalize adjustPos input pos = q at h
      dsimp only [] at h
      by_cases hq : input.length ≤ q
      · rw [if_pos hq] at h
        simp at h
      rw [if_neg hq] at h
      by_cases h1 : (currentChar input q == '#' && isAtLineStart input q) =
        true
      · -- heading
        rw [if_pos h1] at h
        simp only [Bool.and_eq_true, beq_iff_eq] at h1
        exact ihH _ _ _ _ h1.1 (liftTok_eq_ok h)
      rw [if_neg h1] at h
      by_cases h2 : (currentChar input q == '*' ||
          currentChar input q == '_') = true
      · -- emphasis
        rw [if_pos h2] at h
        exact ihE _ _ _ _ (liftTok_eq_ok h)
      rw [if_neg h2] at h
      by_cases h3 : (currentChar input q == btick) = true
      · -- code
        rw [if_pos h3] at h
        simp only [Option.some.injEq, Except.ok.injEq, Prod.mk.injEq] at h
        obtain ⟨h4, -⟩ := h
        subst h4
        obtain ⟨l, c, hc⟩ := parseCode_fst_shape input q
        rw [hc]
        rfl
      rw [if_neg h3] at h
      by_cases h4 : (currentChar input q == '>' &&
          isAtLineStart input q) = true
      · -- blockquote
        rw [if_pos h4] at h
        simp only [Option.some.injEq, Except.ok.injEq, Prod.mk.injEq] at h
        obtain ⟨h5, -⟩ := h
        subst h5
        obtain ⟨s, hs⟩ := parseBlockquote_fst_shape input q
        rw [hs]
        rfl
      rw [if_neg h4] at h
      by_cases h5 : ((currentChar input q == '-' ||
          currentChar input q == '+') && isAtLineStart input q) = true
      · -- hyphen / plus at line start
        rw [if_pos h5] at h
        by_cases hhr : (checkHorizontalRule input q).1 = true
        · -- horizontal rule
          rw [if_pos hhr] at h
          simp only [Option.some.injEq, Except.ok.injEq, Prod.mk.injEq] at h
          obtain ⟨h6, -⟩ := h
          subst h6
          rfl
        · rw [if_neg hhr] at h
          exact ihLI _ _ _ _ _ _ (liftTok_eq_ok h)
      rw [if_neg h5] at h
      by_cases h6 : ((currentChar input q).isDigit &&
          isAtLineStart input q) = true
      · -- digit at line start
        rw [if_pos h6] at h
        by_cases hm : (checkOrderedListMarker input q).isSome = true
        · rw [if_pos hm] at h
          exact ihLI _ _ _ _ _ _ (liftTok_eq_ok h)
        · rw [if_neg hm] at h
          obtain ⟨s, hs⟩ := parseText_ok_shape (liftTok_some_eq_ok h)
          rw [hs]
          rfl
      rw [if_neg h6] at h
      by_cases h7 : (currentChar input q == '[') = true
      · -- link
        rw [if_pos h7] at h
        simp only [Option.some.injEq, Except.ok.injEq, Prod.mk.injEq] at h
        obtain ⟨h8, -⟩ := h
        subst h8
        obtain ⟨a, u, hu⟩ := parseLink_fst_shape input q
        rw [hu]
        rfl
      rw [if_neg h7] at h
      by_cases h8 : (currentChar input q == '!') = true
      · -- image
        rw [if_pos h8] at h
        obtain ⟨a, u, hu⟩ := parseImage_ok_shape (liftTok_some_eq_ok h)
        rw [hu]
        rfl
      rw [if_neg h8] at h
      by_cases h9 : (currentChar input q == '<' &&
          isHtmlCommentStart input q) = true
      · -- html comment
        rw [if_pos h9] at h
        obtain ⟨s, hs⟩ := parseHtmlComment_ok_shape (liftTok_some_eq_ok h)
        rw [hs]
        rfl
      rw [if_neg h9] at h
      by_cases h10 : (currentChar input q == '\n') = true
      · -- newline
        rw [if_pos h10] at h
        simp only [Option.some.injEq, Except.ok.injEq, Prod.mk.injEq] at h
        obtain ⟨h11, -⟩ := h
        subst h11
        rfl
      · -- text
        rw [if_neg h10] at h
        obtain ⟨s, hs⟩ := parseText_ok_shape (liftTok_some_eq_ok h)
        rw [hs]
        rfl
    -- parseHeading
    · intro input pos t p hc h
      simp only [parseHeading] at h
      obtain ⟨cp, hnc, h2⟩ := andThen_eq_ok h
      simp only [Option.some.injEq, Except.ok.injEq, Prod.mk.injEq] at h2
      obtain ⟨h4, -⟩ := h2
      subst h4
      simp only [tokenHeadingsOK, Bool.and_eq_true]
      refine ⟨?_, ihNC _ _ _ _ _ _ hnc⟩
      simpa using countWhile_pos_of_cur hc (by decide) (by simp)
    -- parseEmphasis
    · intro input pos t p h
      simp only [parseEmphasis] at h
      obtain ⟨cp, hnc, h2⟩ := andThen_eq_ok h
      split at h2
      · simp only [Option.some.injEq, Except.ok.injEq, Prod.mk.injEq] at h2
        obtain ⟨h4, -⟩ := h2
        subst h4
        simp only [tokenHeadingsOK]
        exact tokensHeadingsOK_append (ihNC _ _ _ _ _ _ hnc)
          tokensHeadingsOK_single_space
      · simp at h2
    -- parseNestedContent
    · intro input pos d ind ts p h
      rw [parseNestedContent.eq_2] at h
      dsimp only [] at h
      by_cases hlen : pos < input.length
      case neg =>
        rw [if_neg hlen] at h
        simp only [Option.some.injEq, Except.ok.injEq, Prod.mk.injEq] at h
        obtain ⟨h4, -⟩ := h
        subst h4
        rfl
      rw [if_pos hlen] at h
      by_cases hdel : d (currentChar input pos) = true
      case pos =>
        rw [if_pos hdel] at h
        simp only [Option.some.injEq, Except.ok.injEq, Prod.mk.injEq] at h
        obtain ⟨h4, -⟩ := h
        subst h4
        rfl
      rw [if_neg hdel] at h
      by_cases hind : (isAtLineStart input pos &&
          decide (ind < getCurrentIndent input pos)) = true
      case neg =>
        have hindf : (isAtLineStart input pos &&
            decide (ind < getCurrentIndent input pos)) = false := by
          revert hind
          cases isAtLineStart input pos &&
            decide (ind < getCurrentIndent input pos) <;> simp
        simp only [hindf, Bool.false_and, Bool.false_eq_true,
          if_false] at h
        exact ihNS _ _ _ _ _ _ h
      simp only [hind, Bool.true_and, eq_self_iff_true, if_true] at h
      by_cases hc1 : (currentChar input (pos + getCurrentIndent input pos)
          == '-' || currentChar input (pos + getCurrentIndent input pos)
          == '+') = true
      · rw [if_pos hc1] at h
        by_cases hhr :
            (checkHorizontalRule input
              (pos + getCurrentIndent input pos)).1 = true
        · rw [if_pos hhr] at h
          exact ihNS _ _ _ _ _ _ h
        · rw [if_neg hhr] at h
          obtain ⟨tp, hli, h2⟩ := andThen_eq_ok h
          obtain ⟨sp, hnc, h3⟩ := andThen_eq_ok h2
          simp only [Option.some.injEq, Except.ok.injEq,
            Prod.mk.injEq] at h3
          obtain ⟨h4, -⟩ := h3
          subst h4
          simp only [tokensHeadingsOK, Bool.and_eq_true]
          exact ⟨ihLI _ _ _ _ _ _ hli, ihNC _ _ _ _ _ _ hnc⟩
      · rw [if_neg hc1] at h
        by_cases hc2 : (currentChar input
            (pos + getCurrentIndent input pos)).isDigit = true
        · rw [if_pos hc2] at h
          by_cases hm : (checkOrderedListMarker input
              (pos + getCurrentIndent input pos)).isSome = true
          · rw [if_pos hm] at h
            obtain ⟨tp, hli, h2⟩ := andThen_eq_ok h
            obtain ⟨sp, hnc, h3⟩ := andThen_eq_ok h2
            simp only [Option.some.injEq, Except.ok.injEq,
              Prod.mk.injEq] at h3
            obtain ⟨h4, -⟩ := h3
            subst h4
            simp only [tokensHeadingsOK, Bool.and_eq_true]
            exact ⟨ihLI _ _ _ _ _ _ hli, ihNC _ _ _ _ _ _ hnc⟩
          · rw [if_neg hm] at h
            exact ihNS _ _ _ _ _ _ h
        · rw [if_neg hc2] at h
          exact ihNS _ _ _ _ _ _ h
    -- nestedStep
    · intro input pos d ind ts p h
      simp only [nestedStep] at h
      obtain ⟨tp, hnt, h2⟩ := andThen_eq_ok h
      obtain ⟨sp, hnc, h3⟩ := andThen_eq_ok h2
      obtain ⟨tok, pos'⟩ := tp
      simp only [Option.some.injEq, Except.ok.injEq, Prod.mk.injEq] at h3
      obtain ⟨h4, -⟩ := h3
      subst h4
      cases tok with
      | some t =>
        simp only [tokensHeadingsOK, Bool.and_eq_true]
        exact ⟨ihN _ _ _ _ hnt, ihNC _ _ _ _ _ _ hnc⟩
      | none => exact ihNC _ _ _ _ _ _ hnc
    -- parseListItem
    · intro input pos o ind t p h
      simp only [parseListItem] at h
      obtain ⟨cp, hlc, h2⟩ := andThen_eq_ok h
      obtain ⟨np, hln, h3⟩ := andThen_eq_ok h2
      simp only [Option.some.injEq, Except.ok.injEq, Prod.mk.injEq] at h3
      obtain ⟨h4, -⟩ := h3
      subst h4
      simp only [tokenHeadingsOK]
      exact tokensHeadingsOK_append (ihLC _ _ _ _ hlc)
        (ihLN _ _ _ _ _ hln)
    -- parseListItemContent
    · intro input pos ts p h
      simp only [parseListItemContent] at h
      split at h
      · obtain ⟨tp, hnt, h2⟩ := andThen_eq_ok h
        obtain ⟨sp, hlc, h3⟩ := andThen_eq_ok h2
        obtain ⟨tok, pos'⟩ := tp
        simp only [Option.some.injEq, Except.ok.injEq, Prod.mk.injEq] at h3
        obtain ⟨h4, -⟩ := h3
        subst h4
        cases tok with
        | some t =>
          simp only [tokensHeadingsOK, Bool.and_eq_true]
          exact ⟨ihN _ _ _ _ hnt, ihLC _ _ _ _ hlc⟩
        | none => exact ihLC _ _ _ _ hlc
      · simp only [Option.some.injEq, Except.ok.injEq, Prod.mk.injEq] at h
        obtain ⟨h4, -⟩ := h
        subst h4
        rfl
    -- parseListItemNested
    · intro input pos ind ts p h
      simp only [parseListItemNested] at h
      split at h
      · split at h
        · simp only [Option.some.injEq, Except.ok.injEq,
            Prod.mk.injEq] at h
          rw [h.1.symm]
          rfl
        · split at h
          · split at h
            · exact ihLN _ _ _ _ _ h
            · obtain ⟨tp, hli, h2⟩ := andThen_eq_ok h
              obtain ⟨sp, hln, h3⟩ := andThen_eq_ok h2
              simp only [Option.some.injEq, Except.ok.injEq,
                Prod.mk.injEq] at h3
              obtain ⟨h4, -⟩ := h3
              subst h4
              simp only [tokensHeadingsOK, Bool.and_eq_true]
              exact ⟨ihLI _ _ _ _ _ _ hli, ihLN _ _ _ _ _ hln⟩
          · split at h
            · split at h
              · obtain ⟨tp, hli, h2⟩ := andThen_eq_ok h
                obtain ⟨sp, hln, h3⟩ := andThen_eq_ok h2
                simp only [Option.some.injEq, Except.ok.injEq,
                  Prod.mk.injEq] at h3
                obtain ⟨h4, -⟩ := h3
                subst h4
                simp only [tokensHeadingsOK, Bool.and_eq_true]
                exact ⟨ihLI _ _ _ _ _ _ hli, ihLN _ _ _ _ _ hln⟩
              · exact ihLN _ _ _ _ _ h
            · simp only [Option.some.injEq, Except.ok.injEq,
                Prod.mk.injEq] at h
              obtain ⟨h4, -⟩ := h
              subst h4
              rfl
      · simp only [Option.some.injEq, Except.ok.injEq, Prod.mk.injEq] at h
        obtain ⟨h4, -⟩ := h
        subst h4
        rfl

/-- C4 (counterexample): heading levels are not capped at 6 — a run of
seven `#` characters produces a `Heading` token with level 7. -/
theorem C4_counterexample :
    Lexer.parse "####### x" =
      Except.ok [Token.heading [Token.text "x"] 7] ∧ ¬(7 ≤ 6) :=
  ⟨rfl, by decide⟩

/-- C4 (amended): every `Heading` token anywhere in the token tree returned
by `Lexer::parse` has a level of at least 1 (the level is the length of the
leading `#` run, which is counted from a position whose character is `#`),
but the level is not capped at 6. -/
theorem C4_heading_levels_positive (s : String) (ts : List Token)
    (h : Lexer.parse s = Except.ok ts) : tokensHeadingsOK ts = true := by
  unfold Lexer.parse at h
  split at h
  · rename_i r heq
    subst h
    exact (lexer_headings_invariant _).1 _ _ _ heq
  · simp at h

/-- C4 (witness): the amended invariant applied to the parse of `"# x"`. -/
theorem C4_heading_levels_positive_witness :
    Lexer.parse "# x" = Except.ok [Token.heading [Token.text "x"] 1] ∧
    tokensHeadingsOK [Token.heading [Token.text "x"] 1] = true :=
  ⟨rfl, C4_heading_levels_positive "# x" [Token.heading [Token.text "x"] 1]
    rfl⟩

/-! ### C10: a `#` dispatched while not at a line start -/

/-- C10 (amended): whenever `next_token` dispatches on a `#` that is not at
a line start, it routes it to `parse_text`, which stops immediately at the
special character and fails the whole parse on the zero-length text run with
an `UnknownToken` error; in particular `Lexer::parse "a#b"` fails.  (A `#`
that is consumed inside another token's content — for instance inline
code — is not dispatched on and does not abort the parse.) -/
theorem C10_hash_midline (fuel : Nat) (input : List Char) (pos : Nat)
    (hc : currentChar input pos = '#')
    (hlt : pos < input.length)
    (hls : isAtLineStart input pos = false) :
    nextToken (fuel + 1) input pos =
      some (Except.error (LexerError.unknownToken
        ("Unexpected character at position " ++ Nat.repr pos))) ∧
    Lexer.parse "a#b" =
      Except.error (LexerError.unknownToken
        "Unexpected character at position 1") := by
  constructor
  · have hdrop : input.drop pos = '#' :: input.drop (pos + 1) := by
      rw [← hc]
      exact drop_eq_cons_of_lt hlt
    have hskip : skipWhitespace input pos = pos :=
      skipWhitespace_eq_self
        (by rw [hdrop]; exact countWhile_skippable_zero_of_not_ws _ (by decide))
    have hbt : ('#' == btick) = false := by decide
    have htext : parseText input pos =
        Except.error (LexerError.unknownToken
          ("Unexpected character at position " ++ Nat.repr pos)) := by
      have hscan : textScanList ('#' :: input.drop (pos + 1)) = [] := rfl
      unfold parseText
      simp [hc, hdrop, hscan, String.isEmpty]
    simp only [nextToken, adjustPos_eq_self hskip]
    rw [if_neg (by omega)]
    simp [hc, hls, hbt, htext, liftTok, Except.map]
  · rfl

/-- C10 (witness): the amended statement evaluated at `"a#b"` with the
dispatch at position 1. -/
theorem C10_hash_midline_witness :
    nextToken 4 ['a', '#', 'b'] 1 =
      some (Except.error (LexerError.unknownToken
        ("Unexpected character at position " ++ Nat.repr 1))) :=
  (C10_hash_midline 3 ['a', '#', 'b'] 1 (by decide) (by decide)
    (by decide)).1

/-- C10 (counterexample): not every input with a mid-line `#` makes the
parse fail — in `` "`a#b`" `` the `#` sits inside inline code, is consumed
by `parse_code`, and the parse succeeds. -/
theorem C10_counterexample :
    Lexer.parse (String.mk [btick, 'a', '#', 'b', btick]) =
      Except.ok [Token.code "" "a#b"] := rfl

/-- C2 (counterexample): running the tokenizer and block structurer on
`"A\n\nB"` does not produce `[Paragraph [Text "A"], EmptyLine,
Paragraph [Text "B"]]` — the first paragraph carries a trailing `Newline`
token, because the first of the two newlines is pushed into the pending
inline accumulator before the second newline flushes it. -/
theorem C2_counterexample :
    parseBlocks "A\n\nB" =
      Except.ok [Block.paragraph [Token.text "A", Token.newline],
        Block.emptyLine, Block.paragraph [Token.text "B"]] ∧
    [Block.paragraph [Token.text "A", Token.newline], Block.emptyLine,
        Block.paragraph [Token.text "B"]] ≠
      [Block.paragraph [Token.text "A"], Block.emptyLine,
        Block.paragraph [Token.text "B"]] := by
  constructor
  · have h : Lexer.parse "A\n\nB" = Except.ok [Token.text "A",
        Token.newline, Token.newline, Token.text "B"] := rfl
    show (Lexer.parse "A\n\nB").map Pdf.groupTokens = _
    rw [h]
    show Except.ok (Pdf.groupTokens [Token.text "A", Token.newline,
      Token.newline, Token.text "B"]) = _
    simp [Pdf.groupTokens, groupTokensAux, flushAcc]
  · intro h
    simp at h

/-- C2 (amended): `"A\n\nB"` yields `[Paragraph [Text "A", Newline],
EmptyLine, Paragraph [Text "B"]]` — the soft-break `Newline` preceding the
blank line stays in the first paragraph's content — and `"A\nB"` yields a
single `Paragraph` containing `Text "A"`, a `Newline` soft break, and
`Text "B"`. -/
theorem C2_pipeline_blocks :
    parseBlocks "A\n\nB" =
      Except.ok [Block.paragraph [Token.text "A", Token.newline],
        Block.emptyLine, Block.paragraph [Token.text "B"]] ∧
    parseBlocks "A\nB" =
      Except.ok [Block.paragraph
        [Token.text "A", Token.newline, Token.text "B"]] := by
  constructor
  · have h : Lexer.parse "A\n\nB" = Except.ok [Token.text "A",
        Token.newline, Token.newline, Token.text "B"] := rfl
    show (Lexer.parse "A\n\nB").map Pdf.groupTokens = _
    rw [h]
    show Except.ok (Pdf.groupTokens [Token.text "A", Token.newline,
      Token.newline, Token.text "B"]) = _
    simp [Pdf.groupTokens, groupTokensAux, flushAcc]
  · have h : Lexer.parse "A\nB" = Except.ok [Token.text "A",
        Token.newline, Token.text "B"] := rfl
    show (Lexer.parse "A\nB").map Pdf.groupTokens = _
    rw [h]
    show Except.ok (Pdf.groupTokens [Token.text "A", Token.newline,
      Token.text "B"]) = _
    simp [Pdf.groupTokens, groupTokensAux, flushAcc]

/-- C3: the `Newline` handling of `group_tokens` is exactly the described
state machine.  With the counter at 0 a `Newline` is pushed into the pending
inline accumulator and the counter becomes 1 (no flush, no block); with the
counter at 1 the accumulator is flushed as a `Paragraph` iff it is
non-empty, an `EmptyLine` block is emitted, and the counter resets to 0. -/
theorem C3_newline_state_machine (rest : List Token) (blocks : List Block)
    (acc : List Token) :
    (groupTokensAux (Token.newline :: rest) blocks acc 0 =
      groupTokensAux rest blocks (acc ++ [Token.newline]) 1) ∧
    (acc ≠ [] →
      groupTokensAux (Token.newline :: rest) blocks acc 1 =
        groupTokensAux rest
          (blocks ++ [Block.paragraph acc, Block.emptyLine]) [] 0) ∧
    (groupTokensAux (Token.newline :: rest) blocks [] 1 =
      groupTokensAux rest (blocks ++ [Block.emptyLine]) [] 0) := by
  refine ⟨?_, fun hacc => ?_, ?_⟩
  · simp [groupTokensAux]
  · simp [groupTokensAux, flushAcc, hacc]
  · simp [groupTokensAux, flushAcc]

/-- C3 (witness): the state machine equations at concrete states. -/
theorem C3_newline_state_machine_witness :
    groupTokensAux (Token.newline :: []) [] [Token.text "x"] 1 =
      groupTokensAux [] ([] ++ [Block.paragraph [Token.text "x"],
        Block.emptyLine]) [] 0 :=
  (C3_newline_state_machine [] [] [Token.text "x"]).2.1 (by simp)

/-- C5 (counterexample): a link whose closing `]` is missing does not make
the parse fail — `"[abc"` tokenizes successfully to a `Link` token whose
text runs to the end of the input and whose URL is empty. -/
theorem C5_counterexample :
    Lexer.parse "[abc" = Except.ok [Token.link "abc" ""] := rfl

/-- C5 (amended): malformed links never fail — a missing `]` yields
`Link(text-to-end, "")` and a missing `)` yields `Link(text, url-to-end)`;
for images, a `!` not followed by `[` fails with `UnknownToken("!")` and a
missing `]` (after which no `(` can follow) fails with the alt text as the
error payload, but a missing `)` still yields an `Image` token. -/
theorem C5_malformed_links_images :
    Lexer.parse "[abc" = Except.ok [Token.link "abc" ""] ∧
    Lexer.parse "[a](u" = Except.ok [Token.link "a" "u"] ∧
    Lexer.parse "!x" = Except.error (LexerError.unknownToken "!") ∧
    Lexer.parse "![abc" = Except.error (LexerError.unknownToken "abc") ∧
    Lexer.parse "![a](u" = Except.ok [Token.image "a" "u"] :=
  ⟨rfl, rfl, rfl, rfl, rfl⟩

/-- C7: overriding only `heading.1.size` changes exactly the `size` field of
the `heading_1` descriptor in the resolved style table; every other field of
`heading_1`, every other element's descriptor and the margins are the
built-in defaults. -/
theorem C7_size_override_frame (i : Int) :
    load_config_from (Value.table [("heading",
        Value.table [("1", Value.table [("size", Value.integer i)])])]) =
      { StyleMatch.default with
        heading_1 := { StyleMatch.default.heading_1 with
          size := intAsU8 i } } :=
  rfl

/-- C9: top-level `Image` tokens are silently discarded by `group_tokens`
(no block, no flush of the pending accumulator, newline counter reset), as
are `HtmlComment` and `Unknown`; and `render_inline_tokens` ignores
`Image`, `HtmlComment` and `Unknown` tokens inside block content, so an
image contributes nothing to the block sequence or the rendered output. -/
theorem C9_images_discarded (a u s : String) (rest : List Token)
    (blocks : List Block) (acc : List Token) (nl : Nat) (sm : StyleMatch)
    (style : PdfStyle) :
    (groupTokensAux (Token.image a u :: rest) blocks acc nl =
      groupTokensAux rest blocks acc 0) ∧
    (groupTokensAux (Token.htmlComment s :: rest) blocks acc nl =
      groupTokensAux rest blocks acc 0) ∧
    (groupTokensAux (Token.unknown s :: rest) blocks acc nl =
      groupTokensAux rest blocks acc 0) ∧
    (renderInlineTokens sm style (Token.image a u :: rest) =
      renderInlineTokens sm style rest) ∧
    (renderInlineTokens sm style (Token.htmlComment s :: rest) =
      renderInlineTokens sm style rest) ∧
    (renderInlineTokens sm style (Token.unknown s :: rest) =
      renderInlineTokens sm style rest) ∧
    renderInlineToken sm style (Token.image a u) = [] := by
  refine ⟨?_, ?_, ?_, ?_, ?_, ?_, ?_⟩ <;>
    simp [groupTokensAux, renderInlineTokens, renderInlineToken]

/-- C6 (counterexample): an alignment override whose value is the
unrecognized string `"bogus"` is not ignored by the style resolver — merged
over the `heading_1` defaults it replaces the built-in `Center` alignment
with `Left`. -/
theorem C6_counterexample :
    (parse_style (some (Value.table [("alignment", Value.str "bogus")]))
        StyleMatch.default.heading_1).alignment = some TextAlignment.left ∧
    StyleMatch.default.heading_1.alignment = some TextAlignment.center ∧
    some TextAlignment.left ≠ some TextAlignment.center :=
  ⟨rfl, rfl, by decide⟩

/-- C6 (amended): an alignment override whose value is a string not among
`"left"`, `"center"`, `"right"`, `"justify"` is mapped to `Left` and
replaces the element's built-in default alignment; only a missing
`alignment` key or a non-string value (here: an integer) is ignored, keeping
the default. -/
theorem C6_unrecognized_alignment (s : String) (dflt : BasicTextStyle)
    (h1 : s ≠ "left") (h2 : s ≠ "center") (h3 : s ≠ "right")
    (h4 : s ≠ "justify") :
    (parse_style (some (Value.table [("alignment", Value.str s)]))
        dflt).alignment = some TextAlignment.left ∧
    ∀ i : Int,
      (parse_style (some (Value.table [("alignment", Value.integer i)]))
          dflt).alignment = dflt.alignment := by
  constructor
  · simp [parse_style, parse_alignment, parse_color, Value.get,
      Value.asStr, Value.asInteger, Value.asFloat, Value.asBool,
      List.lookup, h1, h2, h3, h4]
  · intro i
    simp [parse_style, parse_alignment, parse_color, Value.get,
      Value.asStr, Value.asInteger, Value.asFloat, Value.asBool,
      List.lookup]

/-- C6 (witness): the amended statement at the concrete string `"bogus"`
over the `heading_1` defaults, and at the integer `5`. -/
theorem C6_unrecognized_alignment_witness :
    (parse_style (some (Value.table [("alignment", Value.str "bogus")]))
        StyleMatch.default.heading_1).alignment = some TextAlignment.left ∧
    (parse_style (some (Value.table [("alignment", Value.integer 5)]))
        StyleMatch.default.heading_1).alignment =
      StyleMatch.default.heading_1.alignment := by
  have h := C6_unrecognized_alignment "bogus" StyleMatch.default.heading_1
    (by decide) (by decide) (by decide) (by decide)
  exact ⟨h.1, h.2 5⟩

/-! ### C1: emphasis runs -/

/-- C1 (counterexample): tokenizing `"*a*"` yields an `Emphasis` token whose
content is `[Text "a", Text " "]` — `parse_emphasis` appends a trailing
`Text " "` — and not content exactly `[Text "a"]`. -/
theorem C1_counterexample :
    Lexer.parse "*a*" =
      Except.ok [Token.emphasis 1 [Token.text "a", Token.text " "]] ∧
    Lexer.parse "*a*" ≠
      Except.ok [Token.emphasis 1 [Token.text "a"]] := by
  constructor
  · rfl
  · intro h
    rw [show Lexer.parse "*a*" =
      Except.ok [Token.emphasis 1 [Token.text "a", Token.text " "]]
      from rfl] at h
    simp at h

/-- C1 (amended): for a delimiter `d ∈ {*, _}`, a run length `1 ≤ L ≤ 3`
and a nonempty plain text `T` (no newline, no special-token start
character, not starting with whitespace), tokenizing `d^L T d^L` yields
exactly one token `Emphasis(L, [Text T, Text " "])` — the content carries a
trailing `Text " "` in addition to `Text T` — and tokenizing the unclosed
run `d^L T` fails with the unmatched-emphasis error. -/
theorem C1_emphasis_runs (d t0 : Char) (L : Nat) (T' : List Char)
    (hd : d = '*' ∨ d = '_') (hL1 : 1 ≤ L) (hL3 : L ≤ 3)
    (hplain : ∀ c ∈ t0 :: T', plainChar c = true)
    (hnw : rustIsWhitespace t0 = false) :
    Lexer.parse (String.mk (List.replicate L d ++ (t0 :: T') ++
        List.replicate L d)) =
      Except.ok [Token.emphasis L
        [Token.text (String.mk (t0 :: T')), Token.text " "]] ∧
    Lexer.parse (String.mk (List.replicate L d ++ (t0 :: T'))) =
      Except.error (LexerError.unknownToken
        "Unmatched emphasis at position 0") := by
  constructor
  · rw [lexerParse_emphasis_closed hd hL1 hplain hnw, min_eq_left hL3]
  · rw [lexerParse_emphasis_unclosed hd hL1 hplain hnw]
    rfl

/-- C1 (witness): the amended statement at `d = '*'`, `L = 2`,
`T = "hi"`. -/
theorem C1_emphasis_runs_witness :
    Lexer.parse (String.mk (List.replicate 2 '*' ++ ('h' :: ['i']) ++
        List.replicate 2 '*')) =
      Except.ok [Token.emphasis 2
        [Token.text (String.mk ('h' :: ['i'])), Token.text " "]] ∧
    Lexer.parse (String.mk (List.replicate 2 '*' ++ ('h' :: ['i']))) =
      Except.error (LexerError.unknownToken
        "Unmatched emphasis at position 0") :=
  C1_emphasis_runs '*' 'h' 2 ['i'] (Or.inl rfl) (by decide) (by decide)
    (by decide) (by decide)

/-! ### C8: text round-trip -/

/-- C8 (counterexample): a leading space is skipped by `next_token`, so the
input `" a"` tokenizes to `[Text "a"]` and the concatenated token contents
`"a"` do not reproduce the input. -/
theorem C8_counterexample :
    Lexer.parse " a" = Except.ok [Token.text "a"] ∧
    tokensContent [Token.text "a"] ≠ (" a" : String).data := by
  constructor
  · rfl
  · decide

/-- C8 (amended): for every input made only of ordinary text characters
(plain, non-whitespace, not `>`, `-`, `+` or a digit) and single
non-consecutive newlines, tokenizing succeeds and produces only `Text` and
`Newline` tokens whose concatenated contents (each `Newline` contributing
one newline character) reproduce the input exactly. Whitespace must be
excluded from the ordinary characters: the counterexample shows a leading
space breaks the round trip. -/
theorem C8_text_roundtrip (l : List Char)
    (h : onlyTextAndSingleNewlines l) :
    ∃ ts, Lexer.parse (String.mk l) = Except.ok ts ∧
      (∀ t ∈ ts, isTextOrNewline t = true) ∧
      tokensContent ts = l := by
  obtain ⟨hchars, -⟩ := h
  obtain ⟨ts, hts, htn, hcontent⟩ := parseTokens_text_roundtrip
    l.length (lexFuel l) l 0 (by omega) (by unfold lexFuel; omega)
    (by simpa using hchars)
  exact ⟨ts, lexerParse_of_parseTokens hts, htn, by simpa using hcontent⟩

/-- C8 (witness): the round trip at the concrete input `"ab\ncd"`. -/
theorem C8_text_roundtrip_witness :
    ∃ ts, Lexer.parse (String.mk ['a', 'b', '\n', 'c', 'd']) =
        Except.ok ts ∧
      (∀ t ∈ ts, isTextOrNewline t = true) ∧
      tokensContent ts = ['a', 'b', '\n', 'c', 'd'] :=
  C8_text_roundtrip ['a', 'b', '\n', 'c', 'd'] ⟨by decide, by
    simp only [List.chain'_cons, List.chain'_singleton]
    decide⟩

end MdPdf
